import Mathlib

/-!
Verification of the control-schema state mutation engine of `src/app.py`
(a Flask vehicle-dashboard backend).  The engine is shallowly embedded:

* JSON values (the only values the engine manipulates) are modelled by `JVal`.
  Python floats are modelled as exact rationals (`Rat`); every numeric literal
  appearing in the claims is an exact decimal, so no binary-rounding behaviour
  is at stake.  Python `None` is `JVal.null`.
* Python dicts are association lists in insertion order; `getKey`/`setKey`/
  `delKey` mirror `d[k]`, `d[k] = v` (in-place update or append) and `del d[k]`.
* Functions that can raise an uncaught Python exception are modelled in
  `Except String`; the rejection sentinel `None` returned by `normalize_value`
  is the ordinary value `.ok JVal.null`, distinct from `.error`.
* File persistence (`write_json` calls) is out of scope per the spec; the
  functions return the mutated document instead of writing it.
-/

/-- A JSON-like Python value: `None`, `bool`, `int`, `float` (modelled as an
exact rational), `str`, `list`, `dict` (insertion-ordered association list). -/
inductive JVal where
  | null : JVal
  | bool : Bool → JVal
  | int : Int → JVal
  | float : Rat → JVal
  | str : String → JVal
  | arr : List JVal → JVal
  | obj : List (String × JVal) → JVal
deriving Repr

mutual
/-- Structural equality test for JSON values. -/
def JVal.beq : JVal → JVal → Bool
  | .null, .null => true
  | .bool a, .bool b => a == b
  | .int a, .int b => a == b
  | .float a, .float b => a == b
  | .str a, .str b => a == b
  | .arr xs, .arr ys => JVal.beqList xs ys
  | .obj xs, .obj ys => JVal.beqPairs xs ys
  | _, _ => false

/-- Structural equality test for JSON value lists. -/
def JVal.beqList : List JVal → List JVal → Bool
  | [], [] => true
  | x :: xs, y :: ys => JVal.beq x y && JVal.beqList xs ys
  | _, _ => false

/-- Structural equality test for key-value lists. -/
def JVal.beqPairs : List (String × JVal) → List (String × JVal) → Bool
  | [], [] => true
  | (k, x) :: xs, (l, y) :: ys => k == l && JVal.beq x y && JVal.beqPairs xs ys
  | _, _ => false
end

mutual
/-- Soundness and completeness of the equality test. -/
def JVal.beqIff : ∀ a b : JVal, JVal.beq a b = true ↔ a = b
  | .null, b => by cases b <;> simp [JVal.beq]
  | .bool x, b => by cases b <;> simp [JVal.beq]
  | .int x, b => by cases b <;> simp [JVal.beq]
  | .float x, b => by cases b <;> simp [JVal.beq]
  | .str x, b => by cases b <;> simp [JVal.beq]
  | .arr xs, b => by
    cases b <;> simp [JVal.beq]
    exact JVal.beqListIff xs _
  | .obj xs, b => by
    cases b <;> simp [JVal.beq]
    exact JVal.beqPairsIff xs _

/-- Soundness and completeness of the list equality test. -/
def JVal.beqListIff : ∀ xs ys : List JVal, JVal.beqList xs ys = true ↔ xs = ys
  | [], [] => by simp [JVal.beqList]
  | [], _ :: _ => by simp [JVal.beqList]
  | _ :: _, [] => by simp [JVal.beqList]
  | x :: xs, y :: ys => by
    simp [JVal.beqList, Bool.and_eq_true, JVal.beqIff x y, JVal.beqListIff xs ys]

/-- Soundness and completeness of the key-value list equality test. -/
def JVal.beqPairsIff :
    ∀ xs ys : List (String × JVal), JVal.beqPairs xs ys = true ↔ xs = ys
  | [], [] => by simp [JVal.beqPairs]
  | [], _ :: _ => by simp [JVal.beqPairs]
  | _ :: _, [] => by simp [JVal.beqPairs]
  | (k, x) :: xs, (l, y) :: ys => by
    simp [JVal.beqPairs, Bool.and_eq_true, JVal.beqIff x y, JVal.beqPairsIff xs ys]
end

instance : DecidableEq JVal := fun a b => decidable_of_iff _ (JVal.beqIff a b)

instance {ε α : Type} [DecidableEq ε] [DecidableEq α] : DecidableEq (Except ε α) :=
  fun a b =>
    match a, b with
    | .ok x, .ok y =>
      if h : x = y then isTrue (by rw [h])
      else isFalse (fun hh => h (by injection hh))
    | .error e, .error f =>
      if h : e = f then isTrue (by rw [h])
      else isFalse (fun hh => h (by injection hh))
    | .ok _, .error _ => isFalse (fun hh => by cases hh)
    | .error _, .ok _ => isFalse (fun hh => by cases hh)

/-- An insertion-ordered Python dict with string keys (one nesting level). -/
abbrev Doc := List (String × JVal)

/-- Python `d.get(k)` / `k in d` lookup: first binding wins. -/
def getKey : Doc → String → Option JVal
  | [], _ => none
  | (k, v) :: rest, key => if k = key then some v else getKey rest key

/-- Python `d[k] = v`: replace the value of an existing key in place, else
append the new binding at the end (dict insertion order). -/
def setKey : Doc → String → JVal → Doc
  | [], k, v => [(k, v)]
  | (k', v') :: rest, k, v =>
    if k' = k then (k, v) :: rest else (k', v') :: setKey rest k v

/-- Python `del d[k]`. Python dicts never hold duplicate keys, so removing
every binding of `k` agrees with removing the single one. -/
def delKey (d : Doc) (k : String) : Doc :=
  d.filter (fun kv => kv.1 ≠ k)

/-- Python `k in d`. -/
def keyMem (k : String) (d : Doc) : Bool :=
  (getKey d k).isSome

/-- Python truthiness of a JSON value (`bool(v)`). -/
def pyTruthy : JVal → Bool
  | .null => false
  | .bool b => b
  | .int n => n != 0
  | .float q => q != 0
  | .str s => s != ""
  | .arr xs => !xs.isEmpty
  | .obj o => !o.isEmpty

/-- Python `==` restricted to the comparisons the engine performs (a scalar on
at least one side).  Numeric values compare across `bool`/`int`/`float` like
Python; containers fall back to structural equality, which the engine only
ever reaches with a scalar on one side, where both notions agree. -/
def pyEqb : JVal → JVal → Bool
  | .null, .null => true
  | .bool a, .bool b => a = b
  | .bool a, .int n => (if a then (1 : Int) else 0) = n
  | .bool a, .float q => (if a then (1 : Rat) else 0) = q
  | .int m, .bool b => m = (if b then (1 : Int) else 0)
  | .int m, .int n => m = n
  | .int m, .float q => (m : Rat) = q
  | .float p, .bool b => p = (if b then (1 : Rat) else 0)
  | .float p, .int n => p = (n : Rat)
  | .float p, .float q => p = q
  | .str a, .str b => a = b
  | _, _ => false

/-- Addition of rationals through `mkRat`, which the kernel evaluates. -/
def ratAdd (a b : Rat) : Rat :=
  mkRat (a.num * b.den + b.num * a.den) (a.den * b.den)

/-- Subtraction of rationals through `mkRat`. -/
def ratSub (a b : Rat) : Rat :=
  mkRat (a.num * b.den - b.num * a.den) (a.den * b.den)

/-- Multiplication of rationals through `mkRat`. -/
def ratMul (a b : Rat) : Rat :=
  mkRat (a.num * b.num) (a.den * b.den)

/-- Division of rationals through `mkRat` (zero divisor yields zero, exactly
as for `Rat`). -/
def ratDiv (a b : Rat) : Rat :=
  if 0 ≤ b.num then mkRat (a.num * b.den) (a.den * b.num.toNat)
  else mkRat (-(a.num * b.den)) (a.den * (-b.num).toNat)

/-- A Python number: an int-like value (`bool` counts as `int`) or a float. -/
inductive PyNum where
  | i : Int → PyNum
  | f : Rat → PyNum

/-- Python `isinstance(v, (int, float))` view (includes `bool`). -/
def asNum : JVal → Option PyNum
  | .bool b => some (.i (if b then 1 else 0))
  | .int n => some (.i n)
  | .float q => some (.f q)
  | _ => none

/-- The rational magnitude of a Python number. -/
def numR : PyNum → Rat
  | .i n => (n : Rat)
  | .f q => q

/-- Whether a value is a Python number (`isinstance(v, (int, float))`). -/
def isNum (v : JVal) : Bool :=
  (asNum v).isSome

/-- Python `a + b` on numbers: int-like operands give an `int`, any float
operand gives a `float`; other operands raise `TypeError`. -/
def pyAdd (a b : JVal) : Except String JVal :=
  match asNum a, asNum b with
  | some (.i m), some (.i n) => .ok (.int (m + n))
  | some x, some y => .ok (.float (ratAdd (numR x) (numR y)))
  | _, _ => .error "TypeError: unsupported operand for +"

/-- Python `a - b` on numbers. -/
def pySub (a b : JVal) : Except String JVal :=
  match asNum a, asNum b with
  | some (.i m), some (.i n) => .ok (.int (m - n))
  | some x, some y => .ok (.float (ratSub (numR x) (numR y)))
  | _, _ => .error "TypeError: unsupported operand for -"

/-- Python `a * b` on numbers. -/
def pyMul (a b : JVal) : Except String JVal :=
  match asNum a, asNum b with
  | some (.i m), some (.i n) => .ok (.int (m * n))
  | some x, some y => .ok (.float (ratMul (numR x) (numR y)))
  | _, _ => .error "TypeError: unsupported operand for *"

/-- Python true division `a / b`: always a float; `ZeroDivisionError` on a
zero divisor; `TypeError` on non-numbers. -/
def pyDiv (a b : JVal) : Except String JVal :=
  match asNum a, asNum b with
  | some x, some y =>
    if numR y = 0 then .error "ZeroDivisionError: division by zero"
    else .ok (.float (ratDiv (numR x) (numR y)))
  | _, _ => .error "TypeError: unsupported operand for /"

/-- Python `a > b`: numeric comparison across the numeric tower, string
comparison between strings, `TypeError` otherwise. -/
def pyGtB (a b : JVal) : Except String Bool :=
  match asNum a, asNum b with
  | some x, some y => .ok (decide (numR y < numR x))
  | _, _ =>
    match a, b with
    | .str s, .str t => .ok (decide (t < s))
    | _, _ => .error "TypeError: unsupported comparison"

/-- Python `max(a, b)`: returns `b` exactly when `b > a`, else `a` (ties keep
the first argument, preserving its type). -/
def pyMax (a b : JVal) : Except String JVal := do
  if (← pyGtB b a) then pure b else pure a

/-- Python `min(a, b)`: returns `b` exactly when `b < a`, else `a`. -/
def pyMin (a b : JVal) : Except String JVal := do
  if (← pyGtB a b) then pure b else pure a

/-- The floor of a rational, computed by flooring integer division (the
denominator of a `Rat` is positive). -/
def ratFloor (q : Rat) : Int :=
  q.num.fdiv q.den

/-- Python 3 `round` to the nearest integer, ties to the even integer
(banker's rounding), on an exact rational. -/
def roundHalfEven (q : Rat) : Int :=
  let f := ratFloor q
  let r := ratSub q (f : Rat)
  if r < mkRat 1 2 then f
  else if mkRat 1 2 < r then f + 1
  else if f % 2 = 0 then f else f + 1

/-- Truncation toward zero, as Python `int(float)`: flooring division for
nonnegative values, its mirror image for negative ones. -/
def ratTrunc (q : Rat) : Int :=
  if 0 ≤ q then ratFloor q else -(ratFloor (-q))

/-- Python `round(v)` for one argument: identity on ints (and bools, which are
ints), banker's rounding on floats, `TypeError` otherwise. -/
def pyRound (v : JVal) : Except String Int :=
  match v with
  | .bool b => .ok (if b then 1 else 0)
  | .int n => .ok n
  | .float q => .ok (roundHalfEven q)
  | _ => .error "TypeError: round expects a number"

/-- An ASCII whitespace character, as `str.strip()` removes (the uncommon
unicode whitespace Python also strips is not modelled). -/
def pyWsp (c : Char) : Bool :=
  c = ' ' || c = '\t' || c = '\n' || c = '\r'

/-- Python `s.strip()`. -/
def pyStrip (s : String) : String :=
  ⟨((s.data.dropWhile pyWsp).reverse.dropWhile pyWsp).reverse⟩

/-- Lower-casing of an ASCII character. -/
def pyLowerChar (c : Char) : Char :=
  if 'A' ≤ c && c ≤ 'Z' then Char.ofNat (c.toNat + 32) else c

/-- Python `s.lower()` (ASCII range). -/
def pyLower (s : String) : String :=
  ⟨s.data.map pyLowerChar⟩

/-- Parse a nonempty all-digit character list as a natural number. -/
def parseDigits : List Char → Option Nat
  | [] => none
  | cs =>
    if cs.all (fun c => c.isDigit) then
      some (cs.foldl (fun acc c => acc * 10 + (c.toNat - 48)) 0)
    else none

/-- Python `int(str)` after stripping: optional sign then decimal digits.
(Underscore separators and non-ASCII digits are not modelled.) -/
def parseIntChars : List Char → Option Int
  | '+' :: rest => (parseDigits rest).map Int.ofNat
  | '-' :: rest => (parseDigits rest).map (fun n => -(n : Int))
  | cs => (parseDigits cs).map Int.ofNat

/-- Digits after the decimal point as a rational in `[0, 1)`. -/
def fracOfDigits (cs : List Char) : Rat :=
  match parseDigits cs with
  | some n => mkRat n (10 ^ cs.length)
  | none => 0

/-- Python `float(str)` after stripping: optional sign, then either plain
digits, `digits.digits`, `.digits` or `digits.` (exponents, `nan` and `inf`
are not modelled; the rationals used here cover every literal at stake). -/
def parseFloatCore (cs : List Char) : Option Rat :=
  match cs.splitOn '.' with
  | [ds] => (parseDigits ds).map (fun n => (n : Rat))
  | [ip, fp] =>
    if ip.isEmpty && fp.isEmpty then none
    else if !ip.all (fun c => c.isDigit) then none
    else if !fp.all (fun c => c.isDigit) then none
    else
      some (ratAdd ((parseDigits ip).getD 0 : Nat) (fracOfDigits fp))
  | _ => none

/-- Signed version of `parseFloatCore`. -/
def parseFloatChars : List Char → Option Rat
  | '+' :: rest => parseFloatCore rest
  | '-' :: rest => (parseFloatCore rest).map Neg.neg
  | cs => parseFloatCore cs

/-- Decimal rendering of a rational whose denominator divides a power of ten,
approximating Python `str(float)` for the decimal values that occur here. -/
def pyFloatRepr (q : Rat) : String :=
  if q.den = 1 then toString q.num ++ ".0"
  else
    match (List.range 40).find? (fun k => 10 ^ k % q.den = 0) with
    | some k =>
      let scale := 10 ^ k / q.den
      let scaled := q.num.natAbs * scale
      let ip := scaled / 10 ^ k
      let fp := scaled % 10 ^ k
      let fpDigits := toString fp
      let padded := String.mk (List.replicate (k - fpDigits.length) '0') ++ fpDigits
      let trimmed := String.mk (padded.data.reverse.dropWhile (fun c => c = '0')).reverse
      let frac := if trimmed = "" then "0" else trimmed
      (if q.num < 0 then "-" else "") ++ toString ip ++ "." ++ frac
    | none => toString q.num ++ "/" ++ toString q.den

/-- The `value_type == "bool"` coercion arm of `normalize_value`
(src/app.py lines 393-407): `None` result is the rejection sentinel. -/
def pyBoolCoerce : JVal → Option JVal
  | .bool b => some (.bool b)
  | .str s =>
    let lowered := pyLower (pyStrip s)
    if lowered = "true" || lowered = "1" || lowered = "on" || lowered = "yes" then
      some (.bool true)
    else if lowered = "false" || lowered = "0" || lowered = "off" || lowered = "no" then
      some (.bool false)
    else none
  | .int n => some (.bool (n != 0))
  | .float q => some (.bool (q != 0))
  | _ => none

/-- The `value_type == "int"` arm: Python `int(value)` with `TypeError` and
`ValueError` both caught as rejection (src/app.py lines 408-412). -/
def pyIntCoerce : JVal → Option JVal
  | .bool b => some (.int (if b then 1 else 0))
  | .int n => some (.int n)
  | .float q => some (.int (ratTrunc q))
  | .str s => (parseIntChars (pyStrip s).data).map (fun n => .int n)
  | _ => none

/-- The `value_type == "float"` arm: Python `float(value)` with errors caught
as rejection (src/app.py lines 413-417). -/
def pyFloatCoerce : JVal → Option JVal
  | .bool b => some (.float (if b then 1 else 0))
  | .int n => some (.float (n : Rat))
  | .float q => some (.float q)
  | .str s => (parseFloatChars (pyStrip s).data).map (fun q => .float q)
  | _ => none

/-- The fallback `str` arm: mappings and sequences are rejected, everything
else is stringified (src/app.py lines 418-421). -/
def pyStrCoerce : JVal → Option JVal
  | .obj _ => none
  | .arr _ => none
  | .null => some (.str "None")
  | .bool b => some (.str (if b then "True" else "False"))
  | .int n => some (.str (toString n))
  | .float q => some (.str (pyFloatRepr q))
  | .str s => some (.str s)

/-- The coercion stage of `normalize_value`: dispatch on the declared
`value_type` (default `"str"`); `none` is the rejection sentinel. -/
def coerceStage (value_type : JVal) (value : JVal) : Option JVal :=
  if pyEqb value_type (.str "bool") then pyBoolCoerce value
  else if pyEqb value_type (.str "int") then pyIntCoerce value
  else if pyEqb value_type (.str "float") then pyFloatCoerce value
  else pyStrCoerce value

/-- Python `x in container` as used by the select check: membership by `==`
in a list, key membership in a dict, substring in a string (needing a string
on the left), `TypeError` otherwise. -/
def pyContains (container : JVal) (x : JVal) : Except String Bool :=
  match container with
  | .arr xs => .ok (xs.any (fun e => pyEqb e x))
  | .obj o =>
    match x with
    | .str s => .ok (keyMem s o)
    | _ => .ok false
  | .str t =>
    match x with
    | .str s => .ok (decide (s.data <:+: t.data))
    | _ => .error "TypeError: in requires string as left operand"
  | _ => .error "TypeError: argument is not iterable"

/-- The lower clamp `coerced = max(min_value, coerced)` when the bound is
present (`None` bounds are skipped). -/
def clampLow (bound : Option JVal) (c : JVal) : Except String JVal :=
  match bound with
  | some mv => pyMax mv c
  | none => pure c

/-- The upper clamp `coerced = min(max_value, coerced)` when the bound is
present (`None` bounds are skipped). -/
def clampHigh (bound : Option JVal) (c : JVal) : Except String JVal :=
  match bound with
  | some mv => pyMin mv c
  | none => pure c

/-- The slider clamp-and-snap block of `normalize_value`
(src/app.py lines 428-442), entered only for numeric coerced values:
clamp by `max`/`min` against the declared bounds (when not `None`), then
`steps = round((coerced - min) / step)`, `coerced = min + steps * step`,
and finally `int(round(coerced))` when `value_type == "int"`. -/
def sliderClampSnap (control : Doc) (value_type : JVal) (coerced : JVal) :
    Except String JVal := do
  let min_value : Option JVal :=
    match getKey control "min" with
    | some .null => none
    | none => none
    | some v => some v
  let max_value : Option JVal :=
    match getKey control "max" with
    | some .null => none
    | none => none
    | some v => some v
  let step : JVal :=
    match getKey control "step" with
    | some v => if pyTruthy v then v else .int 1
    | none => .int 1
  let c1 ← clampLow min_value coerced
  let c2 ← clampHigh max_value c1
  let minv : JVal := match min_value with
    | some mv => mv
    | none => .int 0
  let diff ← pySub c2 minv
  let q ← pyDiv diff step
  let steps ← pyRound q
  let prod ← pyMul (.int steps) step
  let c3 ← pyAdd minv prod
  if pyEqb value_type (.str "int") then
    let r ← pyRound c3
    pure (.int r)
  else
    pure c3

/-- The part of `normalize_value` after the select membership check: apply
the slider logic when the control type is `"slider"` and the coerced value is
numeric, else pass the coerced value through. -/
def afterSelect (control : Doc) (value_type control_type : JVal) (coerced : JVal) :
    Except String JVal :=
  if pyEqb control_type (.str "slider") then
    if isNum coerced then sliderClampSnap control value_type coerced
    else .ok coerced
  else .ok coerced

/-- Python `normalize_value(control, value)` (src/app.py lines 389-444).
`.ok JVal.null` is the rejection sentinel (Python `return None`); `.error`
models an uncaught exception escaping the function. -/
def normalize_value (control : Doc) (value : JVal) : Except String JVal :=
  let value_type := (getKey control "value_type").getD (.str "str")
  let control_type := (getKey control "type").getD (.str "input")
  match coerceStage value_type value with
  | none => .ok .null
  | some coerced =>
    if pyEqb control_type (.str "select") then
      match pyContains ((getKey control "values").getD (.arr [])) coerced with
      | .error e => .error e
      | .ok mem =>
        if !mem then .ok .null
        else afterSelect control value_type control_type coerced
    else afterSelect control value_type control_type coerced

/-- Python `apply_conversion(control, value)` (src/app.py lines 447-453):
`f_to_c` computes `(value - 32) * 5 / 9`, `mph_to_kph` computes
`value * 1.60934`, any other tag is the identity. -/
def apply_conversion (control : Doc) (value : JVal) : Except String JVal :=
  let conversion := (getKey control "conversion").getD .null
  if pyEqb conversion (.str "f_to_c") then do
    let a ← pySub value (.int 32)
    let b ← pyMul a (.int 5)
    pyDiv b (.int 9)
  else if pyEqb conversion (.str "mph_to_kph") then
    pyMul value (.float (mkRat 160934 100000))
  else .ok value

/-- Python `updates.update(other)`: merge bindings left to right. -/
def dictUpd (d other : Doc) : Doc :=
  other.foldl (fun acc kv => setKey acc kv.1 kv.2) d

mutual
/-- The loop of `flatten_update` (src/app.py lines 456-464), threading the
`updates` dict being built: nested dicts recurse with the dotted prefix,
every non-dict value (lists included) is a leaf. -/
def flattenItems : Doc → String → Doc → Doc
  | [], _, acc => acc
  | (k, v) :: rest, pre, acc =>
    let path := if pre = "" then k else pre ++ "." ++ k
    flattenItems rest pre (flattenOne v path acc)

/-- Merge one value into the updates dict being built: a nested dict is
recursively flattened and merged, anything else is recorded as a leaf. -/
def flattenOne : JVal → String → Doc → Doc
  | .obj o, path, acc => dictUpd acc (flattenItems o path [])
  | v, path, acc => setKey acc path v
end

/-- Python `flatten_update(payload)` with the default empty prefix. -/
def flatten_update (payload : Doc) : Doc :=
  flattenItems payload "" []

/-- Helper for `splitDots`, working on the character list. -/
def splitDotsAux : List Char → List (List Char)
  | [] => [[]]
  | c :: cs =>
    match splitDotsAux cs with
    | g :: gs => if c = '.' then [] :: g :: gs else (c :: g) :: gs
    | [] => [[]]

/-- Python `path.split(".")`: always a nonempty list of (possibly empty)
segments. -/
def splitDots (s : String) : List String :=
  (splitDotsAux s.data).map (fun cs => ⟨cs⟩)

/-- The recursive core of `set_in_state` (src/app.py lines 467-474): walk the
parts, replacing any missing or non-dict intermediate with a fresh dict, and
set the final key. -/
def setParts : Doc → List String → JVal → Doc
  | st, [], _ => st
  | st, [k], v => setKey st k v
  | st, k :: rest, v =>
    let child : Doc :=
      match getKey st k with
      | some (.obj o) => o
      | _ => []
    setKey st k (.obj (setParts child rest v))

/-- Python `set_in_state(state, path, value)`. -/
def set_in_state (state : Doc) (path : String) (value : JVal) : Doc :=
  setParts state (splitDots path) value

/-- The recursive core of `delete_in_state` (src/app.py lines 477-487):
returns the new state and whether a deletion happened; a missing or non-dict
intermediate aborts with `False`. -/
def delParts : Doc → List String → Doc × Bool
  | st, [] => (st, false)
  | st, [k] => if keyMem k st then (delKey st k, true) else (st, false)
  | st, k :: rest =>
    match getKey st k with
    | some (.obj o) =>
      let r := delParts o rest
      (setKey st k (.obj r.1), r.2)
    | _ => (st, false)

/-- Python `delete_in_state(state, path)`. -/
def delete_in_state (state : Doc) (path : String) : Doc × Bool :=
  delParts state (splitDots path)

/-- Python `obj.get(key, default)` where `obj` must be a dict; a non-dict
raises `AttributeError`. -/
def pyGetAttr (v : JVal) (key : String) (dflt : JVal) : Except String JVal :=
  match v with
  | .obj o => .ok ((getKey o key).getD dflt)
  | _ => .error "AttributeError: object has no attribute get"

/-- Python `for x in v`: lists yield elements, strings yield one-character
strings, dicts yield their keys, anything else raises `TypeError`. -/
def pyIter : JVal → Except String (List JVal)
  | .arr xs => .ok xs
  | .str s => .ok (s.data.map (fun c => .str ⟨[c]⟩))
  | .obj o => .ok (o.map (fun kv => .str kv.1))
  | _ => .error "TypeError: object is not iterable"

/-- View a value as a dict, as `control.get(...)` requires; a non-dict
element raises `AttributeError`. -/
def pyAsDict : JVal → Except String Doc
  | .obj o => .ok o
  | _ => .error "AttributeError: object has no attribute get"

/-- Lookup in the control index (path to descriptor). -/
def getCtrl : List (String × Doc) → String → Option Doc
  | [], _ => none
  | (k, v) :: rest, key => if k = key then some v else getCtrl rest key

/-- Insertion into the control index (`mapping[path] = control`): replace in
place or append, like a Python dict; a duplicated path keeps the last
descriptor. -/
def setCtrl : List (String × Doc) → String → Doc → List (String × Doc)
  | [], k, v => [(k, v)]
  | (k', v') :: rest, k, v =>
    if k' = k then (k, v) :: rest else (k', v') :: setCtrl rest k v

/-- The loop of `build_control_map`: skip entries whose `path` is not a
string; a non-dict entry raises `AttributeError`. -/
def buildMapLoop : List (String × Doc) → List JVal → Except String (List (String × Doc))
  | mapping, [] => .ok mapping
  | mapping, c :: rest =>
    match pyAsDict c with
    | .error e => .error e
    | .ok ctrl =>
      match getKey ctrl "path" with
      | some (.str p) => buildMapLoop (setCtrl mapping p ctrl) rest
      | _ => buildMapLoop mapping rest

/-- Python `build_control_map(controls)` (src/app.py lines 148-154). -/
def build_control_map (controls : JVal) : Except String (List (String × Doc)) :=
  match pyGetAttr controls "controls" (.arr []) with
  | .error e => .error e
  | .ok seqv =>
    match pyIter seqv with
    | .error e => .error e
    | .ok xs => buildMapLoop [] xs

/-- The loop of `prune_mapped_state_entries` (src/app.py lines 490-499):
for every control with truthy `path` and `maps_to`, delete the entry at
`path`, accumulating the changed flag. -/
def pruneLoop : Doc × Bool → List JVal → Except String (Doc × Bool)
  | acc, [] => .ok acc
  | acc, c :: rest =>
    match pyAsDict c with
    | .error e => .error e
    | .ok ctrl =>
      let path := (getKey ctrl "path").getD .null
      let maps_to := (getKey ctrl "maps_to").getD .null
      if pyTruthy path && pyTruthy maps_to then
        match path with
        | .str p =>
          let r := delete_in_state acc.1 p
          pruneLoop (r.1, r.2 || acc.2) rest
        | _ => .error "AttributeError: object has no attribute split"
      else pruneLoop acc rest

/-- Python `prune_mapped_state_entries(state, controls)`. -/
def prune_mapped_state_entries (state : Doc) (controls : JVal) :
    Except String (Doc × Bool) :=
  match pyGetAttr controls "controls" (.arr []) with
  | .error e => .error e
  | .ok seqv =>
    match pyIter seqv with
    | .error e => .error e
    | .ok xs => pruneLoop (state, false) xs

/-- The final-value adjustment of `apply_update` (src/app.py lines 512-513):
when the control declares `value_type == "int"` and the converted value is a
float, replace it by `int(round(converted))`. -/
def int_round_fix (control : Doc) (converted : JVal) : JVal :=
  if pyEqb ((getKey control "value_type").getD .null) (.str "int") then
    match converted with
    | .float q => .int (roundHalfEven q)
    | v => v
  else converted

/-- One iteration of the `apply_update` loop (src/app.py lines 504-515):
skip unknown or falsy controls, normalize (skipping the `None` sentinel),
convert, adjust ints, and write at `maps_to` or `path`. -/
def apply_pair (control_map : List (String × Doc)) (state : Doc)
    (path : String) (value : JVal) : Except String Doc :=
  match getCtrl control_map path with
  | none => .ok state
  | some control =>
    if !pyTruthy (.obj control) then .ok state
    else
      match normalize_value control value with
      | .error e => .error e
      | .ok .null => .ok state
      | .ok normalized =>
          match apply_conversion control normalized with
          | .error e => .error e
          | .ok converted =>
            let converted := int_round_fix control converted
            let target := (getKey control "maps_to").getD (.str path)
            match target with
            | .str t => .ok (set_in_state state t converted)
            | _ => .error "AttributeError: object has no attribute split"

/-- The loop over the flattened pairs of `apply_update`. -/
def applyLoop (control_map : List (String × Doc)) : Doc → Doc → Except String Doc
  | state, [] => .ok state
  | state, (p, v) :: rest =>
    match apply_pair control_map state p v with
    | .error e => .error e
    | .ok st => applyLoop control_map st rest

/-- Python `apply_update(state, update)` (src/app.py lines 502-518), with the
module globals `CONTROLS` and `CONTROL_MAP` passed explicitly and the final
`write_json` persistence step out of scope: flatten, apply each pair, prune,
and return the mutated state document. -/
def apply_update (controls : JVal) (control_map : List (String × Doc))
    (state : Doc) (update : Doc) : Except String Doc :=
  let updates := flatten_update update
  match applyLoop control_map state updates with
  | .error e => .error e
  | .ok st =>
    match prune_mapped_state_entries st controls with
    | .error e => .error e
    | .ok pr => .ok pr.1

/-- Python `load_controls()` (src/app.py lines 106-110), with the file read
modelled by its outcome: `none` for a missing or undecodable file, otherwise
the parsed JSON.  A non-dict result or a missing `"controls"` key degrades to
the empty catalog. -/
def load_controls (raw : Option JVal) : JVal :=
  let data := raw.getD (.obj [("controls", .arr [])])
  match data with
  | .obj o => if keyMem "controls" o then .obj o else .obj [("controls", .arr [])]
  | _ => .obj [("controls", .arr [])]

mutual
/-- Python `merge_state(default, current)` (src/app.py lines 119-135): for a
dict default, a non-dict current is replaced by (a copy of) the default;
otherwise default keys are merged recursively and unknown current keys are
appended; for a non-dict default, `None` is replaced by the default and any
other current value wins. -/
def merge_state : JVal → JVal → JVal
  | .obj dflt, current =>
    match current with
    | .obj cur =>
      let merged := mergeFields dflt cur
      .obj (merged ++ cur.filter (fun kv => !keyMem kv.1 merged))
    | _ => .obj dflt
  | dflt, current => if current matches .null then dflt else current

/-- The first loop of `merge_state`: merge every default key, recursing when
the current document also has the key. -/
def mergeFields : Doc → Doc → Doc
  | [], _ => []
  | (k, dv) :: rest, cur =>
    (match getKey cur k with
     | some cv => (k, merge_state dv cv)
     | none => (k, dv)) :: mergeFields rest cur
end

/-- The `DEFAULT_STATE` template of src/app.py (lines 19-35). -/
def DEFAULT_STATE : JVal :=
  .obj [
    ("units", .obj [("system", .str "metric")]),
    ("ac", .obj [("power", .bool false), ("temperature_c", .int 22)]),
    ("seat_heating", .obj [("driver_level", .int 0), ("passenger_level", .int 0)]),
    ("seat_cooling", .obj [("driver_level", .int 0), ("passenger_level", .int 0)]),
    ("tacc", .obj [("enabled", .bool false), ("car_speed_kph", .int 88),
                   ("follow_distance", .int 2)]),
    ("wipers", .obj [("mode", .str "auto"), ("frequency_level", .int 1)]),
    ("infotainment", .obj [
      ("power", .bool true), ("volume", .int 18), ("active_app", .str "Radio"),
      ("radio_band", .str "FM"), ("bluetooth_connected", .bool false),
      ("screencast_active", .bool false), ("local_game", .str "Elden Ring")])]

/-- Python `load_state()` (src/app.py lines 138-145) with the file read
modelled by its outcome and the write-back out of scope: a non-dict stored
document becomes `{}`, then the result is merged against `DEFAULT_STATE`. -/
def load_state (raw : Option JVal) : JVal :=
  let data := raw.getD DEFAULT_STATE
  let data := match data with
    | .obj o => JVal.obj o
    | _ => .obj []
  merge_state DEFAULT_STATE data

/-!
Pointwise semantics.  Every mutation `apply_update` performs on the state
document is either a `set_in_state` or a `delete_in_state`, and the sequence
of those operations is determined by the catalog, the index and the update
payload alone (never by the state).  Each operation acts on the node found at
a given dot-path in a state-independent way, which the lemmas below capture;
the universal claims (idempotence, pruning, unknown-path behaviour) follow
from this per-path view.
-/

/-- The kind of node found at a path: an inner mapping or a leaf value. -/
inductive NK where
  | dict : NK
  | leaf : JVal → NK
deriving Repr, DecidableEq

/-- The node of a JSON value reached by descending along a dot-path:
`none` when absent (including descent through a non-mapping). -/
def kindAt : JVal → List String → Option NK
  | .obj _, [] => some .dict
  | v, [] => some (.leaf v)
  | .obj o, k :: rest =>
    match getKey o k with
    | some v => kindAt v rest
    | none => none
  | _, _ :: _ => none

/-- The node of a state document at a (split) dot-path. -/
def nodeKind (d : Doc) (path : List String) : Option NK :=
  kindAt (.obj d) path

/-- Two state documents carrying the same nodes at all paths: the same leaf
values in the same places and the same tree of mappings.  This is finer than
Python dict equality (which additionally ignores nothing but key insertion
order and numeric representation), so proving it proves the documents equal
as Python documents. -/
def DocEquiv (a b : Doc) : Prop :=
  ∀ path : List String, nodeKind a path = nodeKind b path

/-- A primitive state mutation: one `set_in_state` or one `delete_in_state`,
with the dot-path already split. -/
inductive SOp where
  | set : List String → JVal → SOp
  | del : List String → SOp
deriving Repr, DecidableEq

/-- Execute one primitive mutation. -/
def runOp (st : Doc) : SOp → Doc
  | .set parts v => setParts st parts v
  | .del parts => (delParts st parts).1

/-- Execute a sequence of primitive mutations in order. -/
def runOps (ops : List SOp) (st : Doc) : Doc :=
  ops.foldl runOp st

/-- The state-independent effect of one mutation on the node at `path`:
a `set` overwrites every point at or below its target and turns every strict
ancestor into a mapping; a `del` empties every point at or below its target;
all other points are untouched. -/
def opStep (path : List String) (acc : Option NK) : SOp → Option NK
  | .set parts v =>
    if parts.isPrefixOf path then kindAt v (path.drop parts.length)
    else if path.isPrefixOf parts then some .dict
    else acc
  | .del parts =>
    if parts.isPrefixOf path then none else acc

/-- Well-formed mutation: a nonempty split path (as `split(".")` always is). -/
def opWf : SOp → Prop
  | .set parts _ => parts ≠ []
  | .del parts => parts ≠ []

/-- The mutation (if any) that one flattened pair of `apply_update` performs:
the same control flow as `apply_pair`, recording the write instead of doing
it.  `.ok none` means the pair is skipped. -/
def pair_op (control_map : List (String × Doc)) (path : String) (value : JVal) :
    Except String (Option SOp) :=
  match getCtrl control_map path with
  | none => .ok none
  | some control =>
    if !pyTruthy (.obj control) then .ok none
    else
      match normalize_value control value with
      | .error e => .error e
      | .ok .null => .ok none
      | .ok normalized =>
        match apply_conversion control normalized with
        | .error e => .error e
        | .ok converted =>
          let converted := int_round_fix control converted
          let target := (getKey control "maps_to").getD (.str path)
          match target with
          | .str t => .ok (some (.set (splitDots t) converted))
          | _ => .error "AttributeError: object has no attribute split"

/-- The mutations performed by the per-pair loop of `apply_update`, in
order. -/
def collectPairOps (cmap : List (String × Doc)) : Doc → Except String (List SOp)
  | [] => .ok []
  | (p, v) :: rest =>
    match pair_op cmap p v with
    | .error e => .error e
    | .ok o =>
      match collectPairOps cmap rest with
      | .error e => .error e
      | .ok ops => .ok (o.toList ++ ops)

/-- The deletions performed by the prune loop, in order. -/
def pruneOpsFold : List JVal → Except String (List SOp)
  | [] => .ok []
  | c :: rest =>
    match pyAsDict c with
    | .error e => .error e
    | .ok ctrl =>
      let path := (getKey ctrl "path").getD .null
      let maps_to := (getKey ctrl "maps_to").getD .null
      if pyTruthy path && pyTruthy maps_to then
        match path with
        | .str p =>
          match pruneOpsFold rest with
          | .error e => .error e
          | .ok ops => .ok (.del (splitDots p) :: ops)
        | _ => .error "AttributeError: object has no attribute split"
      else pruneOpsFold rest

/-- All mutations performed by one call of `apply_update`: the writes of the
per-pair loop followed by the prune deletions.  The sequence depends only on
the catalog, the index and the update payload, never on the state. -/
def update_ops (controls : JVal) (cmap : List (String × Doc)) (update : Doc) :
    Except String (List SOp) :=
  match collectPairOps cmap (flatten_update update) with
  | .error e => .error e
  | .ok sops =>
    match pyGetAttr controls "controls" (.arr []) with
    | .error e => .error e
    | .ok seqv =>
      match pyIter seqv with
      | .error e => .error e
      | .ok xs =>
        match pruneOpsFold xs with
        | .error e => .error e
        | .ok dops => .ok (sops ++ dops)

/-- The slider snap formula exactly as the spec words it:
`result = min + round((clamped - min) / step) * step` with the clamp
`clamped = min max (max min x)` performed first, over the declared bounds.
This definition follows the specification text; the theorems below compare
it with what the code computes. -/
def slider_spec (m M s n : Int) : Int :=
  m + roundHalfEven (((min M (max m n) - m : Int) : Rat) / (s : Rat)) * s

/-- A scalar JSON value: one of the shapes a successful coercion produces
(never `null`, never a container). -/
def isScalar : JVal → Bool
  | .bool _ => true
  | .int _ => true
  | .float _ => true
  | .str _ => true
  | _ => false

/-- Whether a value is a Python dict (the shapes `flatten_update` recurses
into). -/
def isObjB : JVal → Bool
  | .obj _ => true
  | _ => false

/-- The spec's Fahrenheit slider: bounds 32..212 in the input unit, converted
to Celsius after normalization. -/
def fahrenheitSlider : Doc :=
  [("path", .str "t"), ("type", .str "slider"), ("value_type", .str "float"),
   ("min", .int 32), ("max", .int 212), ("conversion", .str "f_to_c")]

/-- A one-entry catalog holding the Fahrenheit slider. -/
def fahrenheitCatalog : JVal := .obj [("controls", .arr [.obj fahrenheitSlider])]

/-- The index for `fahrenheitCatalog`. -/
def fahrenheitMap : List (String × Doc) := [("t", fahrenheitSlider)]

/-- An int-typed control with a Fahrenheit-to-Celsius conversion. -/
def intFtoCControl : Doc :=
  [("path", .str "p"), ("type", .str "input"), ("value_type", .str "int"),
   ("conversion", .str "f_to_c")]

/-- A one-entry catalog holding `intFtoCControl`. -/
def intFtoCCatalog : JVal := .obj [("controls", .arr [.obj intFtoCControl])]

/-- The index for `intFtoCCatalog`. -/
def intFtoCMap : List (String × Doc) := [("p", intFtoCControl)]

/-- The pipeline in the order the spec rules out: convert first, then
normalize (clamp in the post-conversion unit system).  This definition
follows the specification's wording of the wrong order, for comparison with
what the code does. -/
def convert_then_normalize (control : Doc) (value : JVal) : Except String JVal :=
  match apply_conversion control value with
  | .error e => .error e
  | .ok cv => normalize_value control cv

/-- A control whose writes are redirected by `maps_to`. -/
def aliasControl : Doc :=
  [("path", .str "a.src"), ("maps_to", .str "alias.target"),
   ("value_type", .str "int"), ("type", .str "input")]

/-- A one-entry catalog holding `aliasControl`. -/
def aliasCatalog : JVal := .obj [("controls", .arr [.obj aliasControl])]

/-- The index for `aliasCatalog`. -/
def aliasMap : List (String × Doc) := [("a.src", aliasControl)]

/-- A control whose `maps_to` redirects away from its own `path`. -/
def pruneControl : Doc :=
  [("path", .str "a"), ("maps_to", .str "z"),
   ("value_type", .str "int"), ("type", .str "input")]

/-- A one-entry catalog holding `pruneControl`. -/
def pruneCatalog : JVal := .obj [("controls", .arr [.obj pruneControl])]

/-- The index for `pruneCatalog`. -/
def pruneMap : List (String × Doc) := [("a", pruneControl)]

/-- A field that, when present, is `None` or a number — the shape every
slider bound takes in a well-formed catalog. -/
def numOrNull : Option JVal → Bool
  | none => true
  | some .null => true
  | some v => isNum v

/-- A field that, when present, is a string. -/
def strOpt : Option JVal → Bool
  | none => true
  | some (.str _) => true
  | some _ => false

/-- A well-formed control descriptor: slider bounds are numbers or `None`,
a truthy `step` is a number, `values` is a list, `maps_to` is a string when
present, a truthy `path` is a string, and a conversion tag is only declared
together with a numeric `value_type`.  Every descriptor of the shipped
catalog satisfies this. -/
def wf_control (ctrl : Doc) : Bool :=
  numOrNull (getKey ctrl "min") && numOrNull (getKey ctrl "max")
  && (match getKey ctrl "step" with
      | none => true
      | some v => !pyTruthy v || isNum v)
  && (match (getKey ctrl "values").getD (.arr []) with
      | .arr _ => true
      | _ => false)
  && strOpt (getKey ctrl "maps_to")
  && (!pyTruthy ((getKey ctrl "path").getD .null)
      || (match (getKey ctrl "path").getD .null with
          | .str _ => true
          | _ => false))
  && (!(pyEqb ((getKey ctrl "conversion").getD .null) (.str "f_to_c")
        || pyEqb ((getKey ctrl "conversion").getD .null) (.str "mph_to_kph"))
      || (pyEqb ((getKey ctrl "value_type").getD (.str "str")) (.str "int")
          || pyEqb ((getKey ctrl "value_type").getD (.str "str")) (.str "float")
          || pyEqb ((getKey ctrl "value_type").getD (.str "str")) (.str "bool")))

/-- A well-formed catalog: a dict whose `controls` entry is a list of
well-formed control dicts. -/
def wf_catalog (controls : JVal) : Bool :=
  match controls with
  | .obj o =>
    match (getKey o "controls").getD (.arr []) with
    | .arr xs => xs.all (fun c => match c with
        | .obj d => wf_control d
        | _ => false)
    | _ => false
  | _ => false

/-- A well-formed index: every stored descriptor is well formed. -/
def wf_map (cmap : List (String × Doc)) : Bool :=
  cmap.all (fun kv => wf_control kv.2)

/-- The effective minimum used by the snap formula: the declared bound, or
`0` when absent. -/
def minvOf : Option JVal → JVal
  | some mv => mv
  | none => .int 0

/-- The slider chain with the declared bounds and step already extracted,
for reasoning about `sliderClampSnap` stage by stage. -/
def sliderChain (min_value max_value : Option JVal) (step vt coerced : JVal) :
    Except String JVal := do
  let c1 ← clampLow min_value coerced
  let c2 ← clampHigh max_value c1
  let minv : JVal := minvOf min_value
  let diff ← pySub c2 minv
  let q ← pyDiv diff step
  let steps ← pyRound q
  let prod ← pyMul (.int steps) step
  let c3 ← pyAdd minv prod
  if pyEqb vt (.str "int") then
    let r ← pyRound c3
    pure (.int r)
  else
    pure c3

/-- A descriptor whose string `value_type` is combined with a numeric
conversion tag — the combination that makes `apply_update` raise. -/
def badControl : Doc :=
  [("path", .str "p"), ("value_type", .str "str"),
   ("type", .str "input"), ("conversion", .str "f_to_c")]

/-- A one-entry catalog holding `badControl`. -/
def badCatalog : JVal := .obj [("controls", .arr [.obj badControl])]

/-- The index for `badCatalog`. -/
def badMap : List (String × Doc) := [("p", badControl)]

/-- The merged dict produced by `merge_state` on two dicts: the merged
default fields followed by the unknown current fields. -/
def mergedObj (dflt cur : Doc) : Doc :=
  mergeFields dflt cur ++ cur.filter (fun kv => !keyMem kv.1 (mergeFields dflt cur))

theorem getKey_cons (kv : String × JVal) (rest : Doc) (j : String) :
    getKey (kv :: rest) j = if kv.1 = j then some kv.2 else getKey rest j := by
  cases kv; simp [getKey]

theorem setKey_cons (kv : String × JVal) (rest : Doc) (k : String) (v : JVal) :
    setKey (kv :: rest) k v =
      if kv.1 = k then (k, v) :: rest else kv :: setKey rest k v := by
  cases kv; simp [setKey]

theorem getKey_setKey_self (d : Doc) (k : String) (v : JVal) :
    getKey (setKey d k v) k = some v := by
  induction d with
  | nil => simp [setKey, getKey]
  | cons kv rest ih =>
    rw [setKey_cons]
    by_cases h : kv.1 = k
    · rw [if_pos h, getKey_cons, if_pos rfl]
    · rw [if_neg h, getKey_cons, if_neg h, ih]

theorem getKey_setKey_ne (d : Doc) (k j : String) (v : JVal) (h : j ≠ k) :
    getKey (setKey d k v) j = getKey d j := by
  induction d with
  | nil => simp [setKey, getKey, Ne.symm h]
  | cons kv rest ih =>
    rw [setKey_cons]
    by_cases h1 : kv.1 = k
    · have h2 : kv.1 ≠ j := by rw [h1]; exact Ne.symm h
      rw [if_pos h1, getKey_cons, getKey_cons]
      simp only [if_neg (Ne.symm h), if_neg h2]
    · rw [if_neg h1, getKey_cons, getKey_cons, ih]

theorem getKey_delKey_self (d : Doc) (k : String) :
    getKey (delKey d k) k = none := by
  induction d with
  | nil => simp [delKey, getKey]
  | cons kv rest ih =>
    by_cases h : kv.1 = k
    · simpa [delKey, h] using ih
    · simpa [delKey, h, getKey] using ih

theorem delKey_cons (kv : String × JVal) (rest : Doc) (k : String) :
    delKey (kv :: rest) k =
      if kv.1 = k then delKey rest k else kv :: delKey rest k := by
  by_cases h : kv.1 = k <;> simp [delKey, List.filter_cons, h]

theorem getKey_delKey_ne (d : Doc) (k j : String) (h : j ≠ k) :
    getKey (delKey d k) j = getKey d j := by
  induction d with
  | nil => simp [delKey, getKey]
  | cons kv rest ih =>
    rw [delKey_cons]
    by_cases h1 : kv.1 = k
    · have h2 : kv.1 ≠ j := by rw [h1]; exact Ne.symm h
      rw [if_pos h1, ih]
      simp [getKey, h2]
    · rw [if_neg h1]
      by_cases h2 : kv.1 = j
      · simp [getKey, h2]
      · simp [getKey, h2, ih]

theorem keyMem_false_getKey (d : Doc) (k : String) (h : keyMem k d = false) :
    getKey d k = none := by
  unfold keyMem at h
  cases hg : getKey d k with
  | none => rfl
  | some v => rw [hg] at h; simp at h

theorem kindAt_obj_cons (o : Doc) (k : String) (rest : List String) :
    kindAt (.obj o) (k :: rest) =
      match getKey o k with
      | some v => kindAt v rest
      | none => none := rfl

theorem isPrefixOf_nil_left (l : List String) : List.isPrefixOf [] l = true := by
  cases l <;> rfl

theorem opStep_cons_set (j : String) (parts tail : List String) (v : JVal)
    (a b : Option NK)
    (hinc : List.isPrefixOf parts tail = false →
      List.isPrefixOf tail parts = false → a = b) :
    opStep tail a (.set parts v) = opStep (j :: tail) b (.set (j :: parts) v) := by
  unfold opStep
  simp only [List.isPrefixOf, beq_self_eq_true, Bool.true_and, List.length_cons,
    List.drop_succ_cons]
  by_cases h1 : List.isPrefixOf parts tail = true
  · simp [h1]
  · by_cases h2 : List.isPrefixOf tail parts = true
    · simp [h1, h2]
    · simp [h1, h2, hinc (Bool.eq_false_iff.mpr h1) (Bool.eq_false_iff.mpr h2)]

theorem opStep_cons_del (j : String) (parts tail : List String) (a b : Option NK)
    (hinc : List.isPrefixOf parts tail = false → a = b) :
    opStep tail a (.del parts) = opStep (j :: tail) b (.del (j :: parts)) := by
  unfold opStep
  simp only [List.isPrefixOf, beq_self_eq_true, Bool.true_and]
  by_cases h1 : List.isPrefixOf parts tail = true
  · simp [h1]
  · simp [h1, hinc (Bool.eq_false_iff.mpr h1)]

theorem opStep_del_untouched (path parts : List String) (acc : Option NK)
    (hacc : List.isPrefixOf parts path = true → acc = none) :
    opStep path acc (.del parts) = acc := by
  unfold opStep
  by_cases h : List.isPrefixOf parts path = true
  · simp [h, hacc h]
  · simp [h]

/-- The pointwise effect of `setParts`: state-independent at every path. -/
theorem kindAt_setParts (parts : List String) :
    ∀ (st : Doc) (v : JVal) (path : List String), parts ≠ [] →
      kindAt (.obj (setParts st parts v)) path =
        opStep path (kindAt (.obj st) path) (.set parts v) := by
  induction parts with
  | nil => intro _ _ _ h; exact absurd rfl h
  | cons k rest ih =>
    intro st v path _
    cases rest with
    | nil =>
      cases path with
      | nil => simp [setParts, kindAt, opStep, List.isPrefixOf]
      | cons j tail =>
        by_cases hjk : j = k
        · subst hjk
          simp [setParts, kindAt_obj_cons, getKey_setKey_self, opStep,
            List.isPrefixOf, isPrefixOf_nil_left]
        · simp [setParts, kindAt_obj_cons, getKey_setKey_ne st k j v hjk, opStep,
            List.isPrefixOf, beq_iff_eq, hjk, Ne.symm hjk]
    | cons k2 rest2 =>
      cases path with
      | nil => simp [setParts, kindAt, opStep, List.isPrefixOf]
      | cons j tail =>
        by_cases hjk : j = k
        · subst hjk
          have hmain :
              kindAt (.obj (setParts st (j :: k2 :: rest2) v)) (j :: tail) =
                opStep tail (kindAt (.obj
                  (match getKey st j with
                   | some (.obj o) => o
                   | _ => [])) tail) (.set (k2 :: rest2) v) := by
            simp only [setParts, kindAt_obj_cons, getKey_setKey_self]
            exact ih _ v tail (by simp)
          rw [hmain]
          refine opStep_cons_set j (k2 :: rest2) tail v _ _ (fun _ h2 => ?_)
          have htail : tail ≠ [] := by
            intro h; rw [h] at h2
            rw [isPrefixOf_nil_left] at h2; cases h2
          obtain ⟨j2, tail2, rfl⟩ : ∃ a l, tail = a :: l := by
            cases tail with
            | nil => exact absurd rfl htail
            | cons a l => exact ⟨a, l, rfl⟩
          rw [kindAt_obj_cons]
          cases hg : getKey st j with
          | none => simp [kindAt, getKey, hg]
          | some w => cases w <;> simp [kindAt, kindAt_obj_cons, getKey, hg]
        · simp [setParts, kindAt_obj_cons, getKey_setKey_ne st k j _ hjk, opStep,
            List.isPrefixOf, beq_iff_eq, hjk, Ne.symm hjk]

theorem delParts_unrelated (st : Doc) (k : String) (k2 : String)
    (rest2 : List String) (hne : ∀ o, getKey st k ≠ some (.obj o))
    (path : List String) :
    kindAt (.obj st) path =
      opStep path (kindAt (.obj st) path) (.del (k :: k2 :: rest2)) := by
  refine (opStep_del_untouched path (k :: k2 :: rest2) _ ?_).symm
  intro hpre
  cases path with
  | nil => simp [List.isPrefixOf] at hpre
  | cons j tail =>
    have hkj : k = j ∧ List.isPrefixOf (k2 :: rest2) tail = true := by
      simpa [List.isPrefixOf, beq_iff_eq, Bool.and_eq_true] using hpre
    obtain ⟨hkj, hpt⟩ := hkj
    subst hkj
    have htail : tail ≠ [] := by
      intro h; rw [h] at hpt; simp [List.isPrefixOf] at hpt
    obtain ⟨j2, tail2, rfl⟩ : ∃ a l, tail = a :: l := by
      cases tail with
      | nil => exact absurd rfl htail
      | cons a l => exact ⟨a, l, rfl⟩
    rw [kindAt_obj_cons]
    cases hg : getKey st k with
    | none => simp
    | some w =>
      cases w with
      | obj o => exact absurd hg (hne o)
      | null => simp [kindAt]
      | bool b => simp [kindAt]
      | int n => simp [kindAt]
      | float q => simp [kindAt]
      | str s => simp [kindAt]
      | arr xs => simp [kindAt]

/-- The pointwise effect of `delParts`: state-independent at every path. -/
theorem kindAt_delParts (parts : List String) :
    ∀ (st : Doc) (path : List String), parts ≠ [] →
      kindAt (.obj (delParts st parts).1) path =
        opStep path (kindAt (.obj st) path) (.del parts) := by
  induction parts with
  | nil => intro _ _ h; exact absurd rfl h
  | cons k rest ih =>
    intro st path _
    cases rest with
    | nil =>
      by_cases hk : keyMem k st = true
      · cases path with
        | nil => simp [delParts, hk, kindAt, opStep, List.isPrefixOf]
        | cons j tail =>
          by_cases hjk : j = k
          · subst hjk
            simp [delParts, hk, kindAt_obj_cons, getKey_delKey_self, opStep,
              List.isPrefixOf, isPrefixOf_nil_left]
          · simp [delParts, hk, kindAt_obj_cons, getKey_delKey_ne st k j hjk,
              opStep, List.isPrefixOf, beq_iff_eq, hjk, Ne.symm hjk]
      · have hg := keyMem_false_getKey st k (by simpa using hk)
        have hun : (delParts st [k]).1 = st := by simp [delParts, hk]
        rw [hun]
        refine (opStep_del_untouched path [k] _ ?_).symm
        intro hpre
        cases path with
        | nil => simp [List.isPrefixOf] at hpre
        | cons j tail =>
          have hkj : k = j := by
            simpa [List.isPrefixOf, beq_iff_eq, isPrefixOf_nil_left] using hpre
          subst hkj
          simp [kindAt_obj_cons, hg]
    | cons k2 rest2 =>
      cases hg : getKey st k with
      | some w =>
        cases w with
        | obj o =>
          have hrun : (delParts st (k :: k2 :: rest2)).1 =
              setKey st k (.obj (delParts o (k2 :: rest2)).1) := by
            simp [delParts, hg]
          rw [hrun]
          cases path with
          | nil => simp [kindAt, opStep, List.isPrefixOf]
          | cons j tail =>
            by_cases hjk : j = k
            · subst hjk
              rw [kindAt_obj_cons]
              rw [show getKey (setKey st j (.obj (delParts o (k2 :: rest2)).1)) j
                    = some (.obj (delParts o (k2 :: rest2)).1) from
                  getKey_setKey_self st j _]
              rw [show (match some (JVal.obj (delParts o (k2 :: rest2)).1) with
                    | some v => kindAt v tail
                    | none => none) =
                  kindAt (JVal.obj (delParts o (k2 :: rest2)).1) tail from rfl]
              rw [ih o tail (by simp)]
              exact opStep_cons_del j (k2 :: rest2) tail _ _
                (fun _ => by rw [kindAt_obj_cons, hg])
            · simp [kindAt_obj_cons, getKey_setKey_ne st k j _ hjk, opStep,
                List.isPrefixOf, beq_iff_eq, hjk, Ne.symm hjk]
        | null =>
          have hun : (delParts st (k :: k2 :: rest2)).1 = st := by
            simp [delParts, hg]
          rw [hun]
          exact delParts_unrelated st k k2 rest2 (fun o h => by rw [hg] at h; cases h) path
        | bool b =>
          have hun : (delParts st (k :: k2 :: rest2)).1 = st := by
            simp [delParts, hg]
          rw [hun]
          exact delParts_unrelated st k k2 rest2 (fun o h => by rw [hg] at h; cases h) path
        | int n =>
          have hun : (delParts st (k :: k2 :: rest2)).1 = st := by
            simp [delParts, hg]
          rw [hun]
          exact delParts_unrelated st k k2 rest2 (fun o h => by rw [hg] at h; cases h) path
        | float q =>
          have hun : (delParts st (k :: k2 :: rest2)).1 = st := by
            simp [delParts, hg]
          rw [hun]
          exact delParts_unrelated st k k2 rest2 (fun o h => by rw [hg] at h; cases h) path
        | str s =>
          have hun : (delParts st (k :: k2 :: rest2)).1 = st := by
            simp [delParts, hg]
          rw [hun]
          exact delParts_unrelated st k k2 rest2 (fun o h => by rw [hg] at h; cases h) path
        | arr xs =>
          have hun : (delParts st (k :: k2 :: rest2)).1 = st := by
            simp [delParts, hg]
          rw [hun]
          exact delParts_unrelated st k k2 rest2 (fun o h => by rw [hg] at h; cases h) path
      | none =>
        have hun : (delParts st (k :: k2 :: rest2)).1 = st := by
          simp [delParts, hg]
        rw [hun]
        exact delParts_unrelated st k k2 rest2 (fun o h => by rw [hg] at h; cases h) path

/-- The pointwise effect of a well-formed mutation sequence. -/
theorem kindAt_runOps (ops : List SOp) :
    ∀ st : Doc, (∀ op ∈ ops, opWf op) →
      ∀ path : List String,
        kindAt (.obj (runOps ops st)) path =
          ops.foldl (opStep path) (kindAt (.obj st) path) := by
  induction ops with
  | nil => intro st _ path; rfl
  | cons op rest ih =>
    intro st hwf path
    have hop : opWf op := hwf op (by simp)
    have hrest : ∀ o ∈ rest, opWf o := fun o ho => hwf o (by simp [ho])
    have hbase : kindAt (.obj (runOp st op)) path
        = opStep path (kindAt (.obj st) path) op := by
      cases op with
      | set parts v => exact kindAt_setParts parts st v path hop
      | del parts => exact kindAt_delParts parts st path hop
    show kindAt (.obj (runOps rest (runOp st op))) path = _
    rw [ih (runOp st op) hrest path, hbase]
    rfl

/-- Every single mutation either overwrites the node at a path regardless of
what was there, or leaves it untouched. -/
theorem opStep_const_or_id (path : List String) (op : SOp) :
    (∀ a b : Option NK, opStep path a op = opStep path b op) ∨
    (∀ a : Option NK, opStep path a op = a) := by
  cases op with
  | set parts v =>
    by_cases h1 : List.isPrefixOf parts path = true
    · exact Or.inl (fun a b => by simp [opStep, h1])
    · by_cases h2 : List.isPrefixOf path parts = true
      · exact Or.inl (fun a b => by simp [opStep, h1, h2])
      · exact Or.inr (fun a => by simp [opStep, h1, h2])
  | del parts =>
    by_cases h1 : List.isPrefixOf parts path = true
    · exact Or.inl (fun a b => by simp [opStep, h1])
    · exact Or.inr (fun a => by simp [opStep, h1])

/-- Folding a list of constant-or-identity steps is idempotent. -/
theorem foldl_const_or_id_idem {α β : Type} (f : β → α → β) (l : List α)
    (h : ∀ x ∈ l, (∀ a b : β, f a x = f b x) ∨ (∀ a : β, f a x = a)) :
    ∀ b : β, l.foldl f (l.foldl f b) = l.foldl f b := by
  induction l with
  | nil => intro b; rfl
  | cons x xs ih =>
    intro b
    have hx := h x (by simp)
    have hxs : ∀ y ∈ xs, (∀ a b : β, f a y = f b y) ∨ (∀ a : β, f a y = a) :=
      fun y hy => h y (by simp [hy])
    show xs.foldl f (f ((x :: xs).foldl f b) x) = (x :: xs).foldl f b
    cases hx with
    | inl hconst =>
      have h1 : f ((x :: xs).foldl f b) x = f b x := hconst _ _
      rw [h1]
      rfl
    | inr hid =>
      have h1 : f ((x :: xs).foldl f b) x = (x :: xs).foldl f b := hid _
      rw [h1]
      show xs.foldl f (xs.foldl f (f b x)) = xs.foldl f (f b x)
      exact ih hxs (f b x)

/-- Folding steps that are all the identity at a path leaves the node there
unchanged. -/
theorem foldl_id_steps (path : List String) (l : List SOp)
    (h : ∀ op ∈ l, ∀ a : Option NK, opStep path a op = a) :
    ∀ acc : Option NK, l.foldl (opStep path) acc = acc := by
  induction l with
  | nil => intro acc; rfl
  | cons op rest ih =>
    intro acc
    show rest.foldl (opStep path) (opStep path acc op) = acc
    rw [h op (by simp) acc]
    exact ih (fun o ho a => h o (by simp [ho]) a) acc

/-- Once a node has been emptied, a tail of deletions keeps it empty. -/
theorem foldl_del_none (path : List String) (l : List SOp)
    (h : ∀ op ∈ l, ∃ parts, op = .del parts) :
    l.foldl (opStep path) none = none := by
  induction l with
  | nil => rfl
  | cons op rest ih =>
    obtain ⟨parts, rfl⟩ := h op (by simp)
    show rest.foldl (opStep path) (opStep path none (.del parts)) = none
    have hstep : opStep path none (.del parts) = none := by
      by_cases hp : List.isPrefixOf parts path = true <;> simp [opStep, hp]
    rw [hstep]
    exact ih (fun o ho => h o (by simp [ho]))

/-- `apply_pair` is `pair_op` followed by executing the recorded mutation. -/
theorem apply_pair_eq_op (cmap : List (String × Doc)) (st : Doc) (p : String)
    (v : JVal) :
    apply_pair cmap st p v =
      match pair_op cmap p v with
      | .error e => .error e
      | .ok none => .ok st
      | .ok (some op) => .ok (runOp st op) := by
  unfold apply_pair pair_op
  cases hc : getCtrl cmap p with
  | none => rfl
  | some control =>
    dsimp only
    cases ht : !pyTruthy (.obj control) with
    | true => rfl
    | false =>
      simp only [Bool.false_eq_true, if_false]
      cases hn : normalize_value control v with
      | error e => rfl
      | ok nv =>
        cases nv with
        | null => rfl
        | bool b =>
          dsimp only
          cases hcv : apply_conversion control (.bool b) with
          | error e => rfl
          | ok cv =>
            dsimp only
            cases htg : (getKey control "maps_to").getD (.str p) <;> rfl
        | int n =>
          dsimp only
          cases hcv : apply_conversion control (.int n) with
          | error e => rfl
          | ok cv =>
            dsimp only
            cases htg : (getKey control "maps_to").getD (.str p) <;> rfl
        | float q =>
          dsimp only
          cases hcv : apply_conversion control (.float q) with
          | error e => rfl
          | ok cv =>
            dsimp only
            cases htg : (getKey control "maps_to").getD (.str p) <;> rfl
        | str s =>
          dsimp only
          cases hcv : apply_conversion control (.str s) with
          | error e => rfl
          | ok cv =>
            dsimp only
            cases htg : (getKey control "maps_to").getD (.str p) <;> rfl
        | arr xs =>
          dsimp only
          cases hcv : apply_conversion control (.arr xs) with
          | error e => rfl
          | ok cv =>
            dsimp only
            cases htg : (getKey control "maps_to").getD (.str p) <;> rfl
        | obj o =>
          dsimp only
          cases hcv : apply_conversion control (.obj o) with
          | error e => rfl
          | ok cv =>
            dsimp only
            cases htg : (getKey control "maps_to").getD (.str p) <;> rfl

/-- The per-pair loop of `apply_update` is `collectPairOps` followed by
executing the mutations. -/
theorem applyLoop_eq_ops (cmap : List (String × Doc)) (pairs : Doc) :
    ∀ st : Doc,
      applyLoop cmap st pairs =
        match collectPairOps cmap pairs with
        | .error e => .error e
        | .ok ops => .ok (runOps ops st) := by
  induction pairs with
  | nil => intro st; rfl
  | cons kv rest ih =>
    intro st
    obtain ⟨p, v⟩ := kv
    have hstep := apply_pair_eq_op cmap st p v
    show (match apply_pair cmap st p v with
      | Except.error e => Except.error e
      | Except.ok st2 => applyLoop cmap st2 rest) = _
    unfold collectPairOps
    cases hop : pair_op cmap p v with
    | error e =>
      rw [hop] at hstep
      rw [hstep]
    | ok o =>
      rw [hop] at hstep
      cases o with
      | none =>
        rw [hstep]
        show applyLoop cmap st rest = _
        rw [ih st]
        cases hc : collectPairOps cmap rest with
        | error e => rfl
        | ok ops => simp [Option.toList]
      | some op =>
        rw [hstep]
        show applyLoop cmap (runOp st op) rest = _
        rw [ih (runOp st op)]
        cases hc : collectPairOps cmap rest with
        | error e => rfl
        | ok ops => simp [Option.toList, runOps]

/-- The prune loop is `pruneOpsFold` followed by executing the deletions (the
changed flag is existentially quantified: it depends on the state but the
resulting document does not). -/
theorem pruneLoop_eq_ops (xs : List JVal) :
    ∀ (st : Doc) (b : Bool),
      match pruneOpsFold xs with
      | .error e => pruneLoop (st, b) xs = .error e
      | .ok ops => ∃ b2, pruneLoop (st, b) xs = .ok (runOps ops st, b2) := by
  induction xs with
  | nil => intro st b; exact ⟨b, rfl⟩
  | cons c rest ih =>
    intro st b
    unfold pruneOpsFold pruneLoop
    cases hd : pyAsDict c with
    | error e => simp
    | ok ctrl =>
      simp only
      cases hcond : pyTruthy ((getKey ctrl "path").getD .null)
          && pyTruthy ((getKey ctrl "maps_to").getD .null) with
      | false =>
        simp only [Bool.false_eq_true, if_false]
        exact ih st b
      | true =>
        simp only [if_true]
        cases hpath : (getKey ctrl "path").getD .null with
        | str p =>
          have hrec := ih (delete_in_state st p).1 ((delete_in_state st p).2 || b)
          cases hro : pruneOpsFold rest with
          | error e => rw [hro] at hrec; simpa using hrec
          | ok ops =>
            rw [hro] at hrec
            obtain ⟨b2, hb2⟩ := hrec
            exact ⟨b2, by simpa [runOps, runOp, delete_in_state] using hb2⟩
        | null => simp
        | bool b3 => simp
        | int n => simp
        | float q => simp
        | arr a => simp
        | obj o => simp

theorem runOps_append (a b : List SOp) (st : Doc) :
    runOps (a ++ b) st = runOps b (runOps a st) := by
  simp [runOps, List.foldl_append]

/-- `apply_update` is exactly the execution of its mutation sequence; in
particular whether it raises does not depend on the state. -/
theorem apply_update_eq_ops (controls : JVal) (cmap : List (String × Doc))
    (st : Doc) (update : Doc) :
    match update_ops controls cmap update with
    | .error e => apply_update controls cmap st update = .error e
    | .ok ops => apply_update controls cmap st update = .ok (runOps ops st) := by
  have hloop := applyLoop_eq_ops cmap (flatten_update update) st
  unfold update_ops
  cases h1 : collectPairOps cmap (flatten_update update) with
  | error e =>
    rw [h1] at hloop
    unfold apply_update
    simp [hloop]
  | ok sops =>
    rw [h1] at hloop
    unfold apply_update prune_mapped_state_entries
    cases h2 : pyGetAttr controls "controls" (.arr []) with
    | error e => simp [hloop, h2]
    | ok seqv =>
      cases h3 : pyIter seqv with
      | error e => simp [hloop, h2, h3]
      | ok xs =>
        have hp := pruneLoop_eq_ops xs (runOps sops st) false
        cases h4 : pruneOpsFold xs with
        | error e =>
          rw [h4] at hp
          dsimp only at hp
          simp [hloop, h2, h3, h4, hp]
        | ok dops =>
          rw [h4] at hp
          dsimp only at hp
          obtain ⟨b2, hb2⟩ := hp
          simp [hloop, h2, h3, h4, hb2, runOps_append]

theorem splitDotsAux_ne_nil (cs : List Char) : splitDotsAux cs ≠ [] := by
  cases cs with
  | nil => simp [splitDotsAux]
  | cons c cs =>
    unfold splitDotsAux
    cases h : splitDotsAux cs with
    | nil => simp
    | cons g gs => by_cases hc : c = '.' <;> simp [hc]

theorem splitDots_ne_nil (s : String) : splitDots s ≠ [] := by
  unfold splitDots
  intro h
  exact splitDotsAux_ne_nil s.data (List.map_eq_nil_iff.mp h)

/-- A recorded write comes from a looked-up, truthy control and targets the
split of its `maps_to` (or of the pair's own path). -/
theorem pair_op_some_shape (cmap : List (String × Doc)) (p : String) (v : JVal)
    (op : SOp) (h : pair_op cmap p v = .ok (some op)) :
    ∃ control t cv, getCtrl cmap p = some control ∧
      pyTruthy (.obj control) = true ∧
      (getKey control "maps_to").getD (.str p) = .str t ∧
      op = .set (splitDots t) cv := by
  unfold pair_op at h
  cases hc : getCtrl cmap p with
  | none => rw [hc] at h; cases h
  | some control =>
    rw [hc] at h
    simp only at h
    cases ht : !pyTruthy (.obj control) with
    | true => rw [ht] at h; simp at h
    | false =>
      rw [ht] at h
      simp only [Bool.false_eq_true, if_false] at h
      cases hn : normalize_value control v with
      | error e => rw [hn] at h; cases h
      | ok nv =>
        rw [hn] at h
        have htr : pyTruthy (.obj control) = true := by
          cases hx : pyTruthy (.obj control)
          · rw [hx] at ht; cases ht
          · rfl
        cases nv with
        | null => cases h
        | bool b =>
          dsimp only at h
          cases hcv : apply_conversion control (.bool b) with
          | error e => rw [hcv] at h; cases h
          | ok cv =>
            rw [hcv] at h
            simp only at h
            cases htg : (getKey control "maps_to").getD (.str p) with
            | str t =>
              rw [htg] at h
              injection h with h2
              injection h2 with h3
              exact ⟨control, t, _, rfl, htr, htg, h3.symm⟩
            | null => rw [htg] at h; cases h
            | bool x => rw [htg] at h; cases h
            | int x => rw [htg] at h; cases h
            | float x => rw [htg] at h; cases h
            | arr x => rw [htg] at h; cases h
            | obj x => rw [htg] at h; cases h
        | int n =>
          dsimp only at h
          cases hcv : apply_conversion control (.int n) with
          | error e => rw [hcv] at h; cases h
          | ok cv =>
            rw [hcv] at h
            simp only at h
            cases htg : (getKey control "maps_to").getD (.str p) with
            | str t =>
              rw [htg] at h
              injection h with h2
              injection h2 with h3
              exact ⟨control, t, _, rfl, htr, htg, h3.symm⟩
            | null => rw [htg] at h; cases h
            | bool x => rw [htg] at h; cases h
            | int x => rw [htg] at h; cases h
            | float x => rw [htg] at h; cases h
            | arr x => rw [htg] at h; cases h
            | obj x => rw [htg] at h; cases h
        | float q =>
          dsimp only at h
          cases hcv : apply_conversion control (.float q) with
          | error e => rw [hcv] at h; cases h
          | ok cv =>
            rw [hcv] at h
            simp only at h
            cases htg : (getKey control "maps_to").getD (.str p) with
            | str t =>
              rw [htg] at h
              injection h with h2
              injection h2 with h3
              exact ⟨control, t, _, rfl, htr, htg, h3.symm⟩
            | null => rw [htg] at h; cases h
            | bool x => rw [htg] at h; cases h
            | int x => rw [htg] at h; cases h
            | float x => rw [htg] at h; cases h
            | arr x => rw [htg] at h; cases h
            | obj x => rw [htg] at h; cases h
        | str s =>
          dsimp only at h
          cases hcv : apply_conversion control (.str s) with
          | error e => rw [hcv] at h; cases h
          | ok cv =>
            rw [hcv] at h
            simp only at h
            cases htg : (getKey control "maps_to").getD (.str p) with
            | str t =>
              rw [htg] at h
              injection h with h2
              injection h2 with h3
              exact ⟨control, t, _, rfl, htr, htg, h3.symm⟩
            | null => rw [htg] at h; cases h
            | bool x => rw [htg] at h; cases h
            | int x => rw [htg] at h; cases h
            | float x => rw [htg] at h; cases h
            | arr x => rw [htg] at h; cases h
            | obj x => rw [htg] at h; cases h
        | arr xs =>
          dsimp only at h
          cases hcv : apply_conversion control (.arr xs) with
          | error e => rw [hcv] at h; cases h
          | ok cv =>
            rw [hcv] at h
            simp only at h
            cases htg : (getKey control "maps_to").getD (.str p) with
            | str t =>
              rw [htg] at h
              injection h with h2
              injection h2 with h3
              exact ⟨control, t, _, rfl, htr, htg, h3.symm⟩
            | null => rw [htg] at h; cases h
            | bool x => rw [htg] at h; cases h
            | int x => rw [htg] at h; cases h
            | float x => rw [htg] at h; cases h
            | arr x => rw [htg] at h; cases h
            | obj x => rw [htg] at h; cases h
        | obj o =>
          dsimp only at h
          cases hcv : apply_conversion control (.obj o) with
          | error e => rw [hcv] at h; cases h
          | ok cv =>
            rw [hcv] at h
            simp only at h
            cases htg : (getKey control "maps_to").getD (.str p) with
            | str t =>
              rw [htg] at h
              injection h with h2
              injection h2 with h3
              exact ⟨control, t, _, rfl, htr, htg, h3.symm⟩
            | null => rw [htg] at h; cases h
            | bool x => rw [htg] at h; cases h
            | int x => rw [htg] at h; cases h
            | float x => rw [htg] at h; cases h
            | arr x => rw [htg] at h; cases h
            | obj x => rw [htg] at h; cases h

/-- Provenance of the recorded writes: each comes from one flattened pair. -/
theorem collectPairOps_mem (cmap : List (String × Doc)) :
    ∀ (pairs : Doc) (ops : List SOp), collectPairOps cmap pairs = .ok ops →
      ∀ op ∈ ops, ∃ p v, (p, v) ∈ pairs ∧ pair_op cmap p v = .ok (some op) := by
  intro pairs
  induction pairs with
  | nil =>
    intro ops h op hop
    cases h
    simp at hop
  | cons kv rest ih =>
    intro ops h op hop
    obtain ⟨p, v⟩ := kv
    unfold collectPairOps at h
    cases hpo : pair_op cmap p v with
    | error e => rw [hpo] at h; cases h
    | ok o =>
      rw [hpo] at h
      dsimp only at h
      cases hco : collectPairOps cmap rest with
      | error e => rw [hco] at h; cases h
      | ok ops2 =>
        rw [hco] at h
        dsimp only at h
        injection h with h2
        subst h2
        rcases List.mem_append.mp hop with h1 | h2
        · cases o with
          | none => simp [Option.toList] at h1
          | some op2 =>
            simp only [Option.toList, List.mem_singleton] at h1
            subst h1
            exact ⟨p, v, by simp, hpo⟩
        · obtain ⟨p2, v2, hmem, hpo2⟩ := ih ops2 hco op h2
          exact ⟨p2, v2, by simp [hmem], hpo2⟩

/-- Every prune mutation is a deletion at the split of a truthy string `path`
of a catalog entry that also has a truthy `maps_to`. -/
theorem pruneOpsFold_shape (xs : List JVal) :
    ∀ ops, pruneOpsFold xs = .ok ops →
      ∀ op ∈ ops, ∃ c ctrl p, c ∈ xs ∧ pyAsDict c = .ok ctrl ∧
        (getKey ctrl "path").getD .null = .str p ∧
        (pyTruthy ((getKey ctrl "path").getD .null)
          && pyTruthy ((getKey ctrl "maps_to").getD .null)) = true ∧
        op = .del (splitDots p) := by
  induction xs with
  | nil =>
    intro ops h op hop
    cases h
    simp at hop
  | cons c rest ih =>
    intro ops h op hop
    unfold pruneOpsFold at h
    cases hd : pyAsDict c with
    | error e => rw [hd] at h; cases h
    | ok ctrl =>
      rw [hd] at h
      dsimp only at h
      cases hcond : pyTruthy ((getKey ctrl "path").getD .null)
          && pyTruthy ((getKey ctrl "maps_to").getD .null) with
      | false =>
        rw [hcond] at h
        simp only [Bool.false_eq_true, if_false] at h
        obtain ⟨c2, ctrl2, p2, hm, hd2, hp2, hc2, ho2⟩ := ih ops h op hop
        exact ⟨c2, ctrl2, p2, by simp [hm], hd2, hp2, hc2, ho2⟩
      | true =>
        rw [hcond] at h
        simp only [if_true] at h
        cases hpath : (getKey ctrl "path").getD .null with
        | str p =>
          rw [hpath] at h
          cases hro : pruneOpsFold rest with
          | error e => rw [hro] at h; cases h
          | ok ops2 =>
            rw [hro] at h
            dsimp only at h
            injection h with h2
            subst h2
            rcases List.mem_cons.mp hop with h1 | h2
            · exact ⟨c, ctrl, p, by simp, hd, hpath, hcond, h1⟩
            · obtain ⟨c2, ctrl2, p2, hm, hd2, hp2, hc2, ho2⟩ := ih ops2 hro op h2
              exact ⟨c2, ctrl2, p2, by simp [hm], hd2, hp2, hc2, ho2⟩
        | null => rw [hpath] at h; cases h
        | bool b => rw [hpath] at h; cases h
        | int n => rw [hpath] at h; cases h
        | float q => rw [hpath] at h; cases h
        | arr a => rw [hpath] at h; cases h
        | obj o2 => rw [hpath] at h; cases h

/-- Conversely, every catalog entry with a truthy string `path` and truthy
`maps_to` contributes its deletion to the prune mutations. -/
theorem pruneOpsFold_mem_of (xs : List JVal) :
    ∀ ops, pruneOpsFold xs = .ok ops →
      ∀ c ∈ xs, ∀ ctrl p, pyAsDict c = .ok ctrl →
        (getKey ctrl "path").getD .null = .str p →
        (pyTruthy ((getKey ctrl "path").getD .null)
          && pyTruthy ((getKey ctrl "maps_to").getD .null)) = true →
        SOp.del (splitDots p) ∈ ops := by
  induction xs with
  | nil => intro ops h c hc; simp at hc
  | cons c0 rest ih =>
    intro ops h c hc ctrl p hd hpath hcond
    unfold pruneOpsFold at h
    rcases List.mem_cons.mp hc with rfl | hc2
    · rw [hd] at h
      dsimp only at h
      rw [hcond, if_pos rfl] at h
      rw [hpath] at h
      cases hro : pruneOpsFold rest with
      | error e => rw [hro] at h; cases h
      | ok ops2 =>
        rw [hro] at h
        dsimp only at h
        injection h with h2
        subst h2
        simp
    · cases hd0 : pyAsDict c0 with
      | error e => rw [hd0] at h; cases h
      | ok ctrl0 =>
        rw [hd0] at h
        dsimp only at h
        cases hcond0 : pyTruthy ((getKey ctrl0 "path").getD .null)
            && pyTruthy ((getKey ctrl0 "maps_to").getD .null) with
        | false =>
          rw [hcond0] at h
          simp only [Bool.false_eq_true, if_false] at h
          exact ih ops h c hc2 ctrl p hd hpath hcond
        | true =>
          rw [hcond0] at h
          simp only [if_true] at h
          cases hpath0 : (getKey ctrl0 "path").getD .null with
          | str p0 =>
            rw [hpath0] at h
            cases hro : pruneOpsFold rest with
            | error e => rw [hro] at h; cases h
            | ok ops2 =>
              rw [hro] at h
              dsimp only at h
              injection h with h2
              subst h2
              exact List.mem_cons_of_mem _ (ih ops2 hro c hc2 ctrl p hd hpath hcond)
          | null => rw [hpath0] at h; cases h
          | bool b => rw [hpath0] at h; cases h
          | int n => rw [hpath0] at h; cases h
          | float q => rw [hpath0] at h; cases h
          | arr a => rw [hpath0] at h; cases h
          | obj o2 => rw [hpath0] at h; cases h

theorem isPrefixOf_refl (l : List String) : List.isPrefixOf l l = true := by
  induction l with
  | nil => rfl
  | cons a as ih => simp [List.isPrefixOf, ih]

/-- A deletion sequence containing a deletion at the path itself leaves the
node there empty, whatever it was. -/
theorem foldl_del_mem_none (path : List String) (l : List SOp)
    (hdel : ∀ op ∈ l, ∃ q, op = SOp.del q) (hmem : SOp.del path ∈ l) :
    ∀ acc, l.foldl (opStep path) acc = none := by
  induction l with
  | nil => cases hmem
  | cons op rest ih =>
    intro acc
    rcases List.mem_cons.mp hmem with heq | hmem2
    · show rest.foldl (opStep path) (opStep path acc op) = none
      rw [← heq]
      have hz : opStep path acc (.del path) = none := by
        simp [opStep, isPrefixOf_refl]
      rw [hz]
      exact foldl_del_none path rest (fun o ho => hdel o (List.mem_cons_of_mem _ ho))
    · show rest.foldl (opStep path) (opStep path acc op) = none
      exact ih (fun o ho => hdel o (List.mem_cons_of_mem _ ho)) hmem2 _

/-- Every recorded mutation has a nonempty split path. -/
theorem update_ops_wf (controls : JVal) (cmap : List (String × Doc))
    (update : Doc) (ops : List SOp)
    (h : update_ops controls cmap update = .ok ops) :
    ∀ op ∈ ops, opWf op := by
  intro op hop
  unfold update_ops at h
  cases h1 : collectPairOps cmap (flatten_update update) with
  | error e => rw [h1] at h; cases h
  | ok sops =>
    rw [h1] at h
    dsimp only at h
    cases h2 : pyGetAttr controls "controls" (.arr []) with
    | error e => rw [h2] at h; cases h
    | ok seqv =>
      rw [h2] at h
      dsimp only at h
      cases h3 : pyIter seqv with
      | error e => rw [h3] at h; cases h
      | ok xs =>
        rw [h3] at h
        dsimp only at h
        cases h4 : pruneOpsFold xs with
        | error e => rw [h4] at h; cases h
        | ok dops =>
          rw [h4] at h
          dsimp only at h
          injection h with h5
          subst h5
          rcases List.mem_append.mp hop with hs | hd
          · obtain ⟨p, v, _, hpo⟩ := collectPairOps_mem cmap _ sops h1 op hs
            obtain ⟨_, t, _, _, _, _, rfl⟩ := pair_op_some_shape cmap p v op hpo
            exact splitDots_ne_nil t
          · obtain ⟨_, _, p, _, _, _, _, rfl⟩ := pruneOpsFold_shape xs dops h4 op hd
            exact splitDots_ne_nil p

/-- Re-running the same well-formed mutation sequence changes nothing:
each path's node is either overwritten identically or never touched. -/
theorem runOps_idem (ops : List SOp) (st : Doc) (hwf : ∀ op ∈ ops, opWf op) :
    DocEquiv (runOps ops (runOps ops st)) (runOps ops st) := by
  intro path
  unfold nodeKind
  rw [kindAt_runOps ops _ hwf path, kindAt_runOps ops st hwf path]
  exact foldl_const_or_id_idem (opStep path) ops
    (fun op _ => opStep_const_or_id path op) _

theorem ebind_ok {α β : Type} (a : α) (f : α → Except String β) :
    (Except.ok a >>= f) = f a := rfl

theorem ebind_err {α β : Type} (e : String) (f : α → Except String β) :
    ((Except.error e : Except String α) >>= f) = .error e := rfl

theorem pyMax_int (a b : Int) :
    pyMax (.int a) (.int b) = .ok (.int (max a b)) := by
  unfold pyMax pyGtB
  simp only [asNum, numR, ebind_ok]
  by_cases h : (a : Rat) < (b : Rat)
  · have h2 : a < b := by exact_mod_cast h
    simp [h, max_eq_right h2.le]
    rfl
  · have h2 : ¬a < b := by exact_mod_cast h
    simp [h, max_eq_left (not_lt.mp h2)]
    rfl

theorem pyMin_int (a b : Int) :
    pyMin (.int a) (.int b) = .ok (.int (min a b)) := by
  unfold pyMin pyGtB
  simp only [asNum, numR, ebind_ok]
  by_cases h : (b : Rat) < (a : Rat)
  · have h2 : b < a := by exact_mod_cast h
    simp [h, min_eq_right h2.le]
    rfl
  · have h2 : ¬b < a := by exact_mod_cast h
    simp [h, min_eq_left (not_lt.mp h2)]
    rfl

theorem ratAdd_eq (a b : Rat) : ratAdd a b = a + b := by
  unfold ratAdd
  rw [Rat.mkRat_eq_div]
  have ha : ((a.den : Rat)) ≠ 0 := Nat.cast_ne_zero.mpr a.den_ne_zero
  have hb : ((b.den : Rat)) ≠ 0 := Nat.cast_ne_zero.mpr b.den_ne_zero
  conv_rhs => rw [← Rat.num_div_den a, ← Rat.num_div_den b]
  field_simp <;> ring

theorem ratSub_eq (a b : Rat) : ratSub a b = a - b := by
  unfold ratSub
  rw [Rat.mkRat_eq_div]
  have ha : ((a.den : Rat)) ≠ 0 := Nat.cast_ne_zero.mpr a.den_ne_zero
  have hb : ((b.den : Rat)) ≠ 0 := Nat.cast_ne_zero.mpr b.den_ne_zero
  conv_rhs => rw [← Rat.num_div_den a, ← Rat.num_div_den b]
  field_simp <;> ring

theorem ratMul_eq (a b : Rat) : ratMul a b = a * b := by
  unfold ratMul
  rw [Rat.mkRat_eq_div]
  have ha : ((a.den : Rat)) ≠ 0 := Nat.cast_ne_zero.mpr a.den_ne_zero
  have hb : ((b.den : Rat)) ≠ 0 := Nat.cast_ne_zero.mpr b.den_ne_zero
  conv_rhs => rw [← Rat.num_div_den a, ← Rat.num_div_den b]
  field_simp <;> ring

theorem ratDiv_eq (a b : Rat) : ratDiv a b = a / b := by
  unfold ratDiv
  by_cases hz : b.num = 0
  · have hb0 : b = 0 := by
      rwa [Rat.num_eq_zero] at hz
    simp [hz, hb0]
  · have ha : ((a.den : Rat)) ≠ 0 := Nat.cast_ne_zero.mpr a.den_ne_zero
    have hbden : ((b.den : Rat)) ≠ 0 := Nat.cast_ne_zero.mpr b.den_ne_zero
    have hbnum : ((b.num : Rat)) ≠ 0 := Int.cast_ne_zero.mpr hz
    by_cases hs : 0 ≤ b.num
    · rw [if_pos hs, Rat.mkRat_eq_div]
      have hcast : ((b.num.toNat : Nat) : Rat) = (b.num : Rat) := by
        exact_mod_cast Int.toNat_of_nonneg hs
      conv_rhs => rw [← Rat.num_div_den a, ← Rat.num_div_den b]
      push_cast [hcast]
      field_simp <;> ring
    · rw [if_neg hs, Rat.mkRat_eq_div]
      have hcast : (((-b.num).toNat : Nat) : Rat) = -(b.num : Rat) := by
        exact_mod_cast Int.toNat_of_nonneg (by omega : (0:Int) ≤ -b.num)
      conv_rhs => rw [← Rat.num_div_den a, ← Rat.num_div_den b]
      push_cast [hcast]
      field_simp <;> ring

/-- CLAIM C2: for every slider descriptor over integer bounds, normalization
clamps the coerced value into the declared bounds and snaps it to
`min + round((clamped - min) / step) * step` (rounding the result to an
integer for `value_type == "int"`); an absent `min` performs no lower clamp
and contributes `0` only to the snap origin, an absent `max` performs no
upper clamp; and with `min=0, max=100, step=5` the inputs `97`, `-10`, `103`
normalize to `95`, `0`, `100`. -/
theorem C2_slider_clamp_snap (m M s n : Int) (hs : s ≠ 0) :
    (normalize_value
        [("type", .str "slider"), ("value_type", .str "int"),
         ("min", .int m), ("max", .int M), ("step", .int s)] (.int n)
      = .ok (.int (slider_spec m M s n)))
    ∧ (normalize_value
        [("type", .str "slider"), ("value_type", .str "int"),
         ("min", .int m), ("step", .int s)] (.int n)
      = .ok (.int (m + roundHalfEven (((max m n - m : Int) : Rat) / (s : Rat)) * s)))
    ∧ (normalize_value
        [("type", .str "slider"), ("value_type", .str "int"),
         ("max", .int M), ("step", .int s)] (.int n)
      = .ok (.int (roundHalfEven (((min M n : Int) : Rat) / (s : Rat)) * s)))
    ∧ normalize_value
        [("type", .str "slider"), ("value_type", .str "int"),
         ("min", .int 0), ("max", .int 100), ("step", .int 5)] (.int 97)
      = .ok (.int 95)
    ∧ normalize_value
        [("type", .str "slider"), ("value_type", .str "int"),
         ("min", .int 0), ("max", .int 100), ("step", .int 5)] (.int (-10))
      = .ok (.int 0)
    ∧ normalize_value
        [("type", .str "slider"), ("value_type", .str "int"),
         ("min", .int 0), ("max", .int 100), ("step", .int 5)] (.int 103)
      = .ok (.int 100) := by
  refine ⟨?_, ?_, ?_, by decide, by decide, by decide⟩
  · simp [normalize_value, coerceStage, getKey, pyEqb, afterSelect, sliderClampSnap,
      clampLow, clampHigh, isNum, asNum, pyTruthy, pyMax_int, pyMin_int, pySub,
      pyDiv, pyMul, pyAdd, pyRound, numR, hs, ebind_ok, pyIntCoerce, slider_spec,
      ratDiv_eq]
  · simp [normalize_value, coerceStage, getKey, pyEqb, afterSelect, sliderClampSnap,
      clampLow, clampHigh, isNum, asNum, pyTruthy, pyMax_int, pyMin_int, pySub,
      pyDiv, pyMul, pyAdd, pyRound, numR, hs, ebind_ok, pyIntCoerce, ratDiv_eq]
  · simp [normalize_value, coerceStage, getKey, pyEqb, afterSelect, sliderClampSnap,
      clampLow, clampHigh, isNum, asNum, pyTruthy, pyMax_int, pyMin_int, pySub,
      pyDiv, pyMul, pyAdd, pyRound, numR, hs, ebind_ok, pyIntCoerce, ratDiv_eq]

/-- Witness for C2 at the spec's concrete slider. -/
theorem C2_slider_clamp_snap_witness :
    (5 : Int) ≠ 0 ∧
      normalize_value
          [("type", .str "slider"), ("value_type", .str "int"),
           ("min", .int 0), ("max", .int 100), ("step", .int 5)] (.int 97)
        = .ok (.int (slider_spec 0 100 5 97)) :=
  ⟨by decide, (C2_slider_clamp_snap 0 100 5 97 (by decide)).1⟩

theorem ebind_eq_ok {α β : Type} {x : Except String α} {f : α → Except String β}
    {r : β} : (x >>= f) = .ok r ↔ ∃ a, x = .ok a ∧ f a = .ok r := by
  cases x with
  | ok a => simp [ebind_ok]
  | error e => simp [ebind_err]

theorem pyAdd_ok_scalar {a b r : JVal} (h : pyAdd a b = .ok r) :
    isScalar r = true := by
  unfold pyAdd at h
  cases ha : asNum a with
  | none => rw [ha] at h; cases hb : asNum b <;> rw [hb] at h <;> cases h
  | some x =>
    cases hb : asNum b with
    | none => rw [ha, hb] at h; cases x <;> cases h
    | some y =>
      rw [ha, hb] at h
      cases x <;> cases y <;> (injection h with h2; subst h2; rfl)

theorem pyBoolCoerce_scalar {v c : JVal} (h : pyBoolCoerce v = some c) :
    isScalar c = true := by
  unfold pyBoolCoerce at h
  cases v with
  | bool b => injection h with h2; rw [← h2]; rfl
  | int n => injection h with h2; rw [← h2]; rfl
  | float q => injection h with h2; rw [← h2]; rfl
  | str s =>
    dsimp only at h
    split at h
    · injection h with h2; rw [← h2]; rfl
    · split at h
      · injection h with h2; rw [← h2]; rfl
      · cases h
  | null => cases h
  | arr xs => cases h
  | obj o => cases h

theorem pyIntCoerce_scalar {v c : JVal} (h : pyIntCoerce v = some c) :
    isScalar c = true := by
  unfold pyIntCoerce at h
  cases v with
  | bool b => injection h with h2; rw [← h2]; rfl
  | int n => injection h with h2; rw [← h2]; rfl
  | float q => injection h with h2; rw [← h2]; rfl
  | str s =>
    dsimp only at h
    cases hp : parseIntChars (pyStrip s).data with
    | none => rw [hp] at h; cases h
    | some n => rw [hp] at h; injection h with h2; rw [← h2]; rfl
  | null => cases h
  | arr xs => cases h
  | obj o => cases h

theorem pyFloatCoerce_scalar {v c : JVal} (h : pyFloatCoerce v = some c) :
    isScalar c = true := by
  unfold pyFloatCoerce at h
  cases v with
  | bool b => injection h with h2; rw [← h2]; rfl
  | int n => injection h with h2; rw [← h2]; rfl
  | float q => injection h with h2; rw [← h2]; rfl
  | str s =>
    dsimp only at h
    cases hp : parseFloatChars (pyStrip s).data with
    | none => rw [hp] at h; cases h
    | some q => rw [hp] at h; injection h with h2; rw [← h2]; rfl
  | null => cases h
  | arr xs => cases h
  | obj o => cases h

theorem pyStrCoerce_scalar {v c : JVal} (h : pyStrCoerce v = some c) :
    isScalar c = true := by
  unfold pyStrCoerce at h
  cases v with
  | bool b => injection h with h2; rw [← h2]; rfl
  | int n => injection h with h2; rw [← h2]; rfl
  | float q => injection h with h2; rw [← h2]; rfl
  | str s => injection h with h2; rw [← h2]; rfl
  | null => injection h with h2; rw [← h2]; rfl
  | arr xs => cases h
  | obj o => cases h

theorem coerceStage_scalar {vt v c : JVal} (h : coerceStage vt v = some c) :
    isScalar c = true := by
  unfold coerceStage at h
  split at h
  · exact pyBoolCoerce_scalar h
  · split at h
    · exact pyIntCoerce_scalar h
    · split at h
      · exact pyFloatCoerce_scalar h
      · exact pyStrCoerce_scalar h

theorem sliderClampSnap_ok_scalar {control : Doc} {vt coerced r : JVal}
    (h : sliderClampSnap control vt coerced = .ok r) : isScalar r = true := by
  unfold sliderClampSnap at h
  rw [ebind_eq_ok] at h
  obtain ⟨c1, _, h⟩ := h
  rw [ebind_eq_ok] at h
  obtain ⟨c2, _, h⟩ := h
  rw [ebind_eq_ok] at h
  obtain ⟨diff, _, h⟩ := h
  rw [ebind_eq_ok] at h
  obtain ⟨q, _, h⟩ := h
  rw [ebind_eq_ok] at h
  obtain ⟨steps, _, h⟩ := h
  rw [ebind_eq_ok] at h
  obtain ⟨prod, _, h⟩ := h
  rw [ebind_eq_ok] at h
  obtain ⟨c3, hc3, h⟩ := h
  split at h
  · rw [ebind_eq_ok] at h
    obtain ⟨z, _, h⟩ := h
    injection h with h2
    rw [← h2]
    rfl
  · injection h with h2
    rw [← h2]
    exact pyAdd_ok_scalar hc3

/-- A successful `normalize_value` yields the sentinel or a scalar. -/
theorem normalize_ok_scalar {control : Doc} {value r : JVal}
    (h : normalize_value control value = .ok r) :
    r = .null ∨ isScalar r = true := by
  unfold normalize_value at h
  dsimp only at h
  cases hc : coerceStage ((getKey control "value_type").getD (.str "str")) value with
  | none =>
    rw [hc] at h
    injection h with h2
    exact Or.inl h2.symm
  | some coerced =>
    rw [hc] at h
    dsimp only at h
    have hcs := coerceStage_scalar hc
    have hafter : ∀ h2 : afterSelect control
        ((getKey control "value_type").getD (.str "str"))
        ((getKey control "type").getD (.str "input")) coerced = .ok r,
        r = .null ∨ isScalar r = true := by
      intro h2
      unfold afterSelect at h2
      by_cases hsl : pyEqb ((getKey control "type").getD (.str "input"))
          (.str "slider") = true
      · rw [if_pos hsl] at h2
        by_cases hn : isNum coerced = true
        · rw [if_pos hn] at h2
          exact Or.inr (sliderClampSnap_ok_scalar h2)
        · rw [if_neg hn] at h2
          injection h2 with h3
          subst h3
          exact Or.inr hcs
      · rw [if_neg hsl] at h2
        injection h2 with h3
        subst h3
        exact Or.inr hcs
    by_cases hsel : pyEqb ((getKey control "type").getD (.str "input"))
        (.str "select") = true
    · rw [if_pos hsel] at h
      cases hmem : pyContains ((getKey control "values").getD (.arr [])) coerced with
      | error e => rw [hmem] at h; cases h
      | ok mem =>
        rw [hmem] at h
        cases mem with
        | false =>
          simp only [Bool.not_false, if_true] at h
          injection h with h2
          exact Or.inl h2.symm
        | true =>
          simp only [Bool.not_true, Bool.false_eq_true, if_false] at h
          exact hafter h
    · rw [if_neg hsel] at h
      exact hafter h

/-- CLAIM C3: the rejection sentinel is distinguishable from every accepted
value: a successful normalization yields either the sentinel `None` or a
scalar (never an accepted `None`); booleans and zero survive coercion
(`false` and `0` normalize to themselves, not to the sentinel); and a select
over `["FM", "AM"]` rejects `"XM"` with the sentinel. -/
theorem C3_sentinel_distinguishable :
    (∀ (control : Doc) (value r : JVal),
      normalize_value control value = .ok r → r = .null ∨ isScalar r = true)
    ∧ normalize_value [("value_type", .str "bool"), ("type", .str "toggle")]
        (.bool false) = .ok (.bool false)
    ∧ normalize_value [("value_type", .str "int"), ("type", .str "input")]
        (.int 0) = .ok (.int 0)
    ∧ normalize_value [("type", .str "select"), ("value_type", .str "str"),
        ("values", .arr [.str "FM", .str "AM"])] (.str "XM") = .ok .null :=
  ⟨fun _ _ _ h => normalize_ok_scalar h, by decide, by decide, by decide⟩

/-- Witness for C3's universal component at a concrete control and value. -/
theorem C3_sentinel_distinguishable_witness :
    normalize_value [("value_type", .str "int"), ("type", .str "input")]
        (.int 0) = .ok (.int 0)
    ∧ ((JVal.int 0) = .null ∨ isScalar (.int 0) = true) :=
  ⟨by decide, C3_sentinel_distinguishable.1
    [("value_type", .str "int"), ("type", .str "input")] (.int 0) (.int 0)
    (by decide)⟩

/-- CLAIM C10: for `value_type == "int"`, Python `int()` truncates a
non-integral float toward zero during coercion (3.7 to 3, -3.7 to -3) before
any slider snapping (a step-1 slider writes 3, not the 4 that
round-then-snap of 3.7 would give), while the numeric string "3.7" fails
`int()` and is rejected with the sentinel. -/
theorem C10_int_coercion_truncates :
    normalize_value [("value_type", .str "int"), ("type", .str "input")]
        (.float (mkRat 37 10)) = .ok (.int 3)
    ∧ normalize_value [("value_type", .str "int"), ("type", .str "input")]
        (.float (mkRat (-37) 10)) = .ok (.int (-3))
    ∧ normalize_value [("value_type", .str "int"), ("type", .str "input")]
        (.str "3.7") = .ok .null
    ∧ normalize_value [("value_type", .str "int"), ("type", .str "slider"),
        ("min", .int 0), ("max", .int 10), ("step", .int 1)]
        (.float (mkRat 37 10)) = .ok (.int 3)
    ∧ roundHalfEven (mkRat 37 10) = 4 :=
  ⟨by decide, by decide, by decide, by decide, by decide⟩

theorem pyMul_ok_scalar {a b r : JVal} (h : pyMul a b = .ok r) :
    isScalar r = true := by
  unfold pyMul at h
  cases ha : asNum a with
  | none => rw [ha] at h; cases hb : asNum b <;> rw [hb] at h <;> cases h
  | some x =>
    cases hb : asNum b with
    | none => rw [ha, hb] at h; cases x <;> cases h
    | some y =>
      rw [ha, hb] at h
      cases x <;> cases y <;> (injection h with h2; subst h2; rfl)

theorem pyDiv_ok_scalar {a b r : JVal} (h : pyDiv a b = .ok r) :
    isScalar r = true := by
  unfold pyDiv at h
  cases ha : asNum a with
  | none => rw [ha] at h; cases hb : asNum b <;> rw [hb] at h <;> cases h
  | some x =>
    cases hb : asNum b with
    | none => rw [ha, hb] at h; cases h
    | some y =>
      rw [ha, hb] at h
      dsimp only at h
      split at h
      · cases h
      · injection h with h2; subst h2; rfl

theorem apply_conversion_ok_scalar {ctrl : Doc} {v w : JVal}
    (hv : isScalar v = true) (h : apply_conversion ctrl v = .ok w) :
    isScalar w = true := by
  unfold apply_conversion at h
  dsimp only at h
  split at h
  · rw [ebind_eq_ok] at h
    obtain ⟨a, _, h⟩ := h
    rw [ebind_eq_ok] at h
    obtain ⟨b, _, h⟩ := h
    exact pyDiv_ok_scalar h
  · split at h
    · exact pyMul_ok_scalar h
    · injection h with h2
      rw [← h2]
      exact hv

theorem int_round_fix_scalar {ctrl : Doc} {w : JVal}
    (hw : isScalar w = true) : isScalar (int_round_fix ctrl w) = true := by
  unfold int_round_fix
  split
  · cases w <;> first | rfl | (cases hw)
  · exact hw

theorem kindAt_scalar_nil {w : JVal} (hw : isScalar w = true) :
    kindAt w [] = some (.leaf w) := by
  cases w <;> first | rfl | (cases hw)

/-- One accepted pair writes the converted, int-adjusted value at its
target. -/
theorem apply_pair_ok_write {cmap : List (String × Doc)} {st : Doc}
    {p : String} {v : JVal} {ctrl : Doc} {nv cv : JVal} {t : String}
    (hc : getCtrl cmap p = some ctrl) (ht : pyTruthy (.obj ctrl) = true)
    (hn : normalize_value ctrl v = .ok nv) (hnv : nv ≠ .null)
    (hcv : apply_conversion ctrl nv = .ok cv)
    (htg : (getKey ctrl "maps_to").getD (.str p) = .str t) :
    apply_pair cmap st p v = .ok (set_in_state st t (int_round_fix ctrl cv)) := by
  unfold apply_pair
  rw [hc]
  dsimp only
  rw [ht]
  simp only [Bool.not_true, Bool.false_eq_true, if_false]
  rw [hn]
  cases nv with
  | null => exact absurd rfl hnv
  | bool b => dsimp only; rw [hcv]; dsimp only; rw [htg]
  | int n => dsimp only; rw [hcv]; dsimp only; rw [htg]
  | float q => dsimp only; rw [hcv]; dsimp only; rw [htg]
  | str s => dsimp only; rw [hcv]; dsimp only; rw [htg]
  | arr xs => dsimp only; rw [hcv]; dsimp only; rw [htg]
  | obj o => dsimp only; rw [hcv]; dsimp only; rw [htg]

/-- COUNTEREXAMPLE to C1 as stated: for an int-typed descriptor with an
`f_to_c` conversion, the accepted raw value 33 is written as `int 1`
(the rounded conversion), not as `apply_conversion(normalize_value(33))`,
which is the float 5/9. -/
theorem C1_counterexample :
    apply_update intFtoCCatalog intFtoCMap [] [("p", .int 33)]
      = .ok [("p", .int 1)]
    ∧ normalize_value intFtoCControl (.int 33) = .ok (.int 33)
    ∧ apply_conversion intFtoCControl (.int 33) = .ok (.float (mkRat 5 9))
    ∧ JVal.int 1 ≠ JVal.float (mkRat 5 9) :=
  ⟨by decide, by decide, by decide, by decide⟩

/-- CLAIM C1 (amended): conversion runs after normalization/clamping, with
bounds read in the pre-conversion unit system, and the written value is
`apply_conversion(normalize_value(raw))` further rounded to an int when the
descriptor declares `value_type == "int"` and the conversion produced a
float.  Concretely, the Fahrenheit slider clamps the raw 300 to 212 and then
converts, writing exactly 100.0, while the convert-then-reclamp order the
spec rules out would write 149 instead. -/
theorem C1_conversion_after_clamping :
    (∀ (ctrl : Doc) (p : String) (state : Doc) (raw nv cv : JVal),
      pyTruthy (.obj ctrl) = true →
      getKey ctrl "maps_to" = none →
      isObjB raw = false →
      normalize_value ctrl raw = .ok nv →
      nv ≠ .null →
      apply_conversion ctrl nv = .ok cv →
      ∃ t, apply_update (.obj [("controls", .arr [.obj ctrl])]) [(p, ctrl)]
          state [(p, raw)] = .ok t
        ∧ nodeKind t (splitDots p) = some (.leaf (int_round_fix ctrl cv)))
    ∧ apply_update fahrenheitCatalog fahrenheitMap [] [("t", .int 300)]
        = .ok [("t", .float 100)]
    ∧ convert_then_normalize fahrenheitSlider (.int 300) = .ok (.int 149)
    ∧ JVal.float 100 ≠ JVal.int 149 := by
  refine ⟨?_, by decide, by decide, by decide⟩
  intro ctrl p state raw nv cv hobj hmaps hraw hn hnv hcv
  have hflat : flatten_update [(p, raw)] = [(p, raw)] := by
    cases raw with
    | obj o => exact absurd hraw (by simp [isObjB])
    | null => rfl
    | bool b => rfl
    | int n => rfl
    | float q => rfl
    | str s => rfl
    | arr xs => rfl
  have hc : getCtrl [(p, ctrl)] p = some ctrl := by simp [getCtrl]
  have htg : (getKey ctrl "maps_to").getD (.str p) = .str p := by
    rw [hmaps]; rfl
  have hpair := @apply_pair_ok_write [(p, ctrl)] state p raw ctrl nv cv p
    hc hobj hn hnv hcv htg
  have hw : isScalar (int_round_fix ctrl cv) = true := by
    have hnvs : isScalar nv = true := by
      rcases normalize_ok_scalar hn with h | h
      · exact absurd h hnv
      · exact h
    exact int_round_fix_scalar (apply_conversion_ok_scalar hnvs hcv)
  refine ⟨set_in_state state p (int_round_fix ctrl cv), ?_, ?_⟩
  · unfold apply_update
    dsimp only
    rw [hflat]
    show (match applyLoop [(p, ctrl)] state [(p, raw)] with
      | Except.error e => Except.error e
      | Except.ok st =>
        match prune_mapped_state_entries st (.obj [("controls", .arr [.obj ctrl])]) with
        | Except.error e => Except.error e
        | Except.ok pr => Except.ok pr.1) = _
    have hloop : applyLoop [(p, ctrl)] state [(p, raw)]
        = .ok (set_in_state state p (int_round_fix ctrl cv)) := by
      unfold applyLoop
      rw [hpair]
      rfl
    rw [hloop]
    dsimp only
    have hprune : prune_mapped_state_entries
        (set_in_state state p (int_round_fix ctrl cv))
        (.obj [("controls", .arr [.obj ctrl])])
        = .ok (set_in_state state p (int_round_fix ctrl cv), false) := by
      unfold prune_mapped_state_entries pyGetAttr pyIter pruneLoop pyAsDict
      simp [getKey, hmaps, pyTruthy, pruneLoop]
    rw [hprune]
  · unfold nodeKind set_in_state
    rw [kindAt_setParts (splitDots p) state _ (splitDots p) (splitDots_ne_nil p)]
    simp [opStep, isPrefixOf_refl, kindAt_scalar_nil hw]

/-- Witness for C1's universal component at the Fahrenheit slider. -/
theorem C1_conversion_after_clamping_witness :
    ∃ t, apply_update (.obj [("controls", .arr [.obj fahrenheitSlider])])
        [("t", fahrenheitSlider)] [] [("t", .int 300)] = .ok t
      ∧ nodeKind t (splitDots "t") = some (.leaf (int_round_fix fahrenheitSlider
          (.float 100))) :=
  C1_conversion_after_clamping.1 fahrenheitSlider "t" [] (.int 300) (.int 212)
    (.float 100) (by decide) (by decide) (by decide) (by decide) (by decide)
    (by decide)

/-- CLAIM C5: re-apply is idempotent.  For any catalog, index, state document
and update payload, if applying the update succeeds then applying it again to
the result succeeds and yields the same state document (the same nodes at
every path). -/
theorem C5_apply_update_idempotent (controls : JVal)
    (control_map : List (String × Doc)) (state update t : Doc)
    (h : apply_update controls control_map state update = .ok t) :
    ∃ t2, apply_update controls control_map t update = .ok t2 ∧ DocEquiv t2 t := by
  have h1 := apply_update_eq_ops controls control_map state update
  have h2 := apply_update_eq_ops controls control_map t update
  cases hops : update_ops controls control_map update with
  | error e =>
    rw [hops] at h1
    dsimp only at h1
    rw [h1] at h
    cases h
  | ok ops =>
    rw [hops] at h1 h2
    dsimp only at h1 h2
    rw [h1] at h
    injection h with h3
    subst h3
    exact ⟨runOps ops (runOps ops state), h2,
      runOps_idem ops state (update_ops_wf controls control_map update ops hops)⟩

/-- Witness for C5 at a concrete catalog, state and update. -/
theorem C5_apply_update_idempotent_witness :
    ∃ t2, apply_update fahrenheitCatalog fahrenheitMap [("t", .float 100)]
        [("t", .int 300)] = .ok t2
      ∧ DocEquiv t2 [("t", .float 100)] :=
  C5_apply_update_idempotent fahrenheitCatalog fahrenheitMap [] [("t", .int 300)]
    [("t", .float 100)] (by decide)

/-- CLAIM C4: after a successful `apply_update`, every catalog descriptor
declaring both a truthy string `path` and a truthy `maps_to` has no entry at
its original `path` in the resulting document; and concretely, updating
`aliasControl`'s path writes the value only at `alias.target`, leaving
nothing at `a.src`. -/
theorem C4_maps_to_pruning :
    (∀ (controls seqv : JVal) (control_map : List (String × Doc))
       (state update t : Doc) (xs : List JVal) (c : JVal) (ctrl : Doc)
       (p : String),
      apply_update controls control_map state update = .ok t →
      pyGetAttr controls "controls" (.arr []) = .ok seqv →
      pyIter seqv = .ok xs →
      c ∈ xs →
      pyAsDict c = .ok ctrl →
      (getKey ctrl "path").getD .null = .str p →
      (pyTruthy ((getKey ctrl "path").getD .null)
        && pyTruthy ((getKey ctrl "maps_to").getD .null)) = true →
      nodeKind t (splitDots p) = none)
    ∧ apply_update aliasCatalog aliasMap [] [("a", .obj [("src", .int 5)])]
        = .ok [("alias", .obj [("target", .int 5)])]
    ∧ nodeKind [("alias", .obj [("target", .int 5)])] (splitDots "a.src") = none
    ∧ nodeKind [("alias", .obj [("target", .int 5)])] (splitDots "alias.target")
        = some (.leaf (.int 5)) := by
  refine ⟨?_, by decide, by decide, by decide⟩
  intro controls seqv control_map state update t xs c ctrl p
    h hseq hiter hmem hd hpath hcond
  have hops := apply_update_eq_ops controls control_map state update
  cases hu : update_ops controls control_map update with
  | error e =>
    rw [hu] at hops
    dsimp only at hops
    rw [hops] at h
    cases h
  | ok ops =>
    have hu0 := hu
    rw [hu] at hops
    dsimp only at hops
    rw [hops] at h
    injection h with h3
    subst h3
    unfold update_ops at hu
    cases hcol : collectPairOps control_map (flatten_update update) with
    | error e => rw [hcol] at hu; cases hu
    | ok sops =>
      rw [hcol] at hu
      dsimp only at hu
      rw [hseq] at hu
      dsimp only at hu
      rw [hiter] at hu
      dsimp only at hu
      cases hdo : pruneOpsFold xs with
      | error e => rw [hdo] at hu; cases hu
      | ok dops =>
        rw [hdo] at hu
        dsimp only at hu
        injection hu with h4
        subst h4
        have hwf : ∀ op ∈ sops ++ dops, opWf op :=
          update_ops_wf _ _ _ _ hu0
        unfold nodeKind
        rw [kindAt_runOps _ _ hwf _, List.foldl_append]
        apply foldl_del_mem_none
        · intro op hop
          obtain ⟨c2, ctrl2, p2, _, _, _, _, ho⟩ :=
            pruneOpsFold_shape xs dops hdo op hop
          exact ⟨splitDots p2, ho⟩
        · exact pruneOpsFold_mem_of xs dops hdo c hmem ctrl p hd hpath hcond

/-- Witness for C4's universal component at the alias catalog. -/
theorem C4_maps_to_pruning_witness :
    nodeKind [("alias", .obj [("target", .int 5)])] (splitDots "a.src") = none :=
  C4_maps_to_pruning.1 aliasCatalog (.arr [.obj aliasControl]) aliasMap []
    [("a", .obj [("src", .int 5)])] [("alias", .obj [("target", .int 5)])]
    [.obj aliasControl] (.obj aliasControl) aliasControl "a.src"
    (by decide) (by decide) (by decide) (by decide) (by decide) (by decide)
    (by decide)

/-- CLAIM C6 counterexample: the update flattens to the pair at path `a.b`,
which has no descriptor in the index, yet `apply_update` wipes the state node
at `a.b`: the pruning pass deletes the whole subtree at `a` because
`pruneControl` declares `path = a` with a truthy `maps_to`.  So an unknown
path is not left unchanged. -/
theorem C6_counterexample :
    getCtrl pruneMap "a.b" = none
    ∧ ("a.b", JVal.int 7) ∈ flatten_update [("a", .obj [("b", .int 7)])]
    ∧ apply_update pruneCatalog pruneMap [("a", .obj [("b", .int 7)])]
        [("a", .obj [("b", .int 7)])] = .ok []
    ∧ nodeKind ([] : Doc) (splitDots "a.b")
        ≠ nodeKind [("a", .obj [("b", .int 7)])] (splitDots "a.b") := by
  refine ⟨by decide, by decide, by decide, by decide⟩

/-- CLAIM C6 (amended): a flattened pair whose path has no descriptor in the
index is itself skipped entirely — it contributes no mutation and no error —
and the state node at that path survives unchanged provided no *other*
accepted pair writes at a prefix-related target and no descriptor with a
truthy `path` and `maps_to` prunes at a prefix of it (the original claim
omitted these two provisos). -/
theorem C6_unknown_path_skipped
    (controls seqv : JVal) (control_map : List (String × Doc))
    (state update t : Doc) (xs : List JVal) (p : String) (v : JVal)
    (h : apply_update controls control_map state update = .ok t)
    (hseq : pyGetAttr controls "controls" (.arr []) = .ok seqv)
    (hiter : pyIter seqv = .ok xs)
    (hmem : (p, v) ∈ flatten_update update)
    (hunk : getCtrl control_map p = none)
    (hsets : ∀ q w parts val, (q, w) ∈ flatten_update update →
      pair_op control_map q w = .ok (some (.set parts val)) →
      List.isPrefixOf parts (splitDots p) = false ∧
      List.isPrefixOf (splitDots p) parts = false)
    (hprunes : ∀ c ∈ xs, ∀ ctrl p2, pyAsDict c = .ok ctrl →
      (getKey ctrl "path").getD .null = .str p2 →
      (pyTruthy ((getKey ctrl "path").getD .null)
        && pyTruthy ((getKey ctrl "maps_to").getD .null)) = true →
      List.isPrefixOf (splitDots p2) (splitDots p) = false) :
    pair_op control_map p v = .ok none
    ∧ nodeKind t (splitDots p) = nodeKind state (splitDots p) := by
  constructor
  · unfold pair_op
    rw [hunk]
  · have hops := apply_update_eq_ops controls control_map state update
    cases hu : update_ops controls control_map update with
    | error e =>
      rw [hu] at hops
      dsimp only at hops
      rw [hops] at h
      cases h
    | ok ops =>
      have hu0 := hu
      rw [hu] at hops
      dsimp only at hops
      rw [hops] at h
      injection h with h3
      subst h3
      unfold update_ops at hu
      cases hcol : collectPairOps control_map (flatten_update update) with
      | error e => rw [hcol] at hu; cases hu
      | ok sops =>
        rw [hcol] at hu
        dsimp only at hu
        rw [hseq] at hu
        dsimp only at hu
        rw [hiter] at hu
        dsimp only at hu
        cases hdo : pruneOpsFold xs with
        | error e => rw [hdo] at hu; cases hu
        | ok dops =>
          rw [hdo] at hu
          dsimp only at hu
          injection hu with h4
          subst h4
          have hwf : ∀ op ∈ sops ++ dops, opWf op :=
            update_ops_wf _ _ _ _ hu0
          unfold nodeKind
          rw [kindAt_runOps _ _ hwf _]
          apply foldl_id_steps
          intro op hop a
          rcases List.mem_append.mp hop with hs | hd
          · obtain ⟨q, w, hqw, hpo⟩ :=
              collectPairOps_mem control_map _ sops hcol op hs
            obtain ⟨ctrl2, tstr, cv, _, _, _, hshape⟩ :=
              pair_op_some_shape control_map q w op hpo
            subst hshape
            obtain ⟨h1, h2⟩ := hsets q w (splitDots tstr) cv hqw hpo
            simp [opStep, h1, h2]
          · obtain ⟨c, ctrl, p2, hcx, hdx, hpx, hcondx, hox⟩ :=
              pruneOpsFold_shape xs dops hdo op hd
            subst hox
            have h1 := hprunes c hcx ctrl p2 hdx hpx hcondx
            apply opStep_del_untouched
            intro hpref
            rw [h1] at hpref
            cases hpref

/-- Witness for C6 at a catalog with no controls: the pair at path `x` is
unknown and the state survives unchanged there. -/
theorem C6_unknown_path_skipped_witness :
    pair_op [] "x" (.int 1) = .ok none
    ∧ nodeKind [("y", .int 2)] (splitDots "x")
        = nodeKind [("y", .int 2)] (splitDots "x") :=
  C6_unknown_path_skipped (.obj [("controls", .arr [])]) (.arr []) []
    [("y", .int 2)] [("x", .int 1)] [("y", .int 2)] [] "x" (.int 1)
    (by decide) (by decide) (by decide) (by decide) (by decide)
    (by
      intro q w parts val hm hp
      have hfl : flatten_update [("x", JVal.int 1)] = [("x", JVal.int 1)] := by
        decide
      rw [hfl] at hm
      have hq : q = "x" ∧ w = JVal.int 1 := by simpa using hm
      rw [hq.1, hq.2] at hp
      have hz : pair_op [] "x" (JVal.int 1) = .ok none := by decide
      rw [hz] at hp
      simp at hp)
    (by
      intro c hc ctrl p2 _ _ _
      simp at hc)

theorem isNum_cases (v : JVal) (h : isNum v = true) :
    (∃ b, v = .bool b) ∨ (∃ n, v = .int n) ∨ (∃ q, v = .float q) := by
  cases v with
  | bool b => exact Or.inl ⟨b, rfl⟩
  | int n => exact Or.inr (Or.inl ⟨n, rfl⟩)
  | float q => exact Or.inr (Or.inr ⟨q, rfl⟩)
  | null => simp [isNum, asNum] at h
  | str s => simp [isNum, asNum] at h
  | arr xs => simp [isNum, asNum] at h
  | obj o => simp [isNum, asNum] at h

theorem asNum_some (v : JVal) (h : isNum v = true) : ∃ x, asNum v = some x := by
  rcases isNum_cases v h with ⟨b, rfl⟩ | ⟨n, rfl⟩ | ⟨q, rfl⟩
  · exact ⟨.i (if b then 1 else 0), rfl⟩
  · exact ⟨.i n, rfl⟩
  · exact ⟨.f q, rfl⟩

theorem pyAdd_num (a b : JVal) (ha : isNum a = true) (hb : isNum b = true) :
    ∃ r, pyAdd a b = .ok r ∧ isNum r = true := by
  obtain ⟨x, hx⟩ := asNum_some a ha
  obtain ⟨y, hy⟩ := asNum_some b hb
  unfold pyAdd
  rw [hx, hy]
  cases x <;> cases y <;> exact ⟨_, rfl, rfl⟩

theorem pySub_num (a b : JVal) (ha : isNum a = true) (hb : isNum b = true) :
    ∃ r, pySub a b = .ok r ∧ isNum r = true := by
  obtain ⟨x, hx⟩ := asNum_some a ha
  obtain ⟨y, hy⟩ := asNum_some b hb
  unfold pySub
  rw [hx, hy]
  cases x <;> cases y <;> exact ⟨_, rfl, rfl⟩

theorem pyMul_num (a b : JVal) (ha : isNum a = true) (hb : isNum b = true) :
    ∃ r, pyMul a b = .ok r ∧ isNum r = true := by
  obtain ⟨x, hx⟩ := asNum_some a ha
  obtain ⟨y, hy⟩ := asNum_some b hb
  unfold pyMul
  rw [hx, hy]
  cases x <;> cases y <;> exact ⟨_, rfl, rfl⟩

theorem pyDiv_num (a b : JVal) (ha : isNum a = true) (hb : isNum b = true)
    (htr : pyTruthy b = true) :
    ∃ r, pyDiv a b = .ok r ∧ isNum r = true := by
  obtain ⟨x, hx⟩ := asNum_some a ha
  unfold pyDiv
  rcases isNum_cases b hb with ⟨c, rfl⟩ | ⟨n, rfl⟩ | ⟨q, rfl⟩
  · cases c with
    | true =>
      have hb2 : asNum (JVal.bool true) = some (.i 1) := rfl
      rw [hx, hb2]
      dsimp only
      rw [if_neg (by norm_num [numR])]
      exact ⟨_, rfl, rfl⟩
    | false => simp [pyTruthy] at htr
  · have hn : n ≠ 0 := by simpa [pyTruthy] using htr
    have hb2 : asNum (JVal.int n) = some (.i n) := rfl
    rw [hx, hb2]
    dsimp only
    rw [if_neg (by simp only [numR, Int.cast_eq_zero]; exact hn)]
    exact ⟨_, rfl, rfl⟩
  · have hq : q ≠ 0 := by simpa [pyTruthy] using htr
    have hb2 : asNum (JVal.float q) = some (.f q) := rfl
    rw [hx, hb2]
    dsimp only
    rw [if_neg (by simp only [numR]; exact hq)]
    exact ⟨_, rfl, rfl⟩

theorem pyRound_num (v : JVal) (h : isNum v = true) : ∃ n, pyRound v = .ok n := by
  rcases isNum_cases v h with ⟨b, rfl⟩ | ⟨n, rfl⟩ | ⟨q, rfl⟩ <;> exact ⟨_, rfl⟩

theorem pyGtB_num (a b : JVal) (ha : isNum a = true) (hb : isNum b = true) :
    ∃ g, pyGtB a b = .ok g := by
  obtain ⟨x, hx⟩ := asNum_some a ha
  obtain ⟨y, hy⟩ := asNum_some b hb
  unfold pyGtB
  rw [hx, hy]
  exact ⟨_, rfl⟩

theorem pyMax_num (a b : JVal) (ha : isNum a = true) (hb : isNum b = true) :
    ∃ r, pyMax a b = .ok r ∧ (r = a ∨ r = b) := by
  obtain ⟨g, hg⟩ := pyGtB_num b a hb ha
  unfold pyMax
  rw [hg, ebind_ok]
  cases g with
  | true => exact ⟨b, rfl, Or.inr rfl⟩
  | false => exact ⟨a, rfl, Or.inl rfl⟩

theorem pyMin_num (a b : JVal) (ha : isNum a = true) (hb : isNum b = true) :
    ∃ r, pyMin a b = .ok r ∧ (r = a ∨ r = b) := by
  obtain ⟨g, hg⟩ := pyGtB_num a b ha hb
  unfold pyMin
  rw [hg, ebind_ok]
  cases g with
  | true => exact ⟨b, rfl, Or.inr rfl⟩
  | false => exact ⟨a, rfl, Or.inl rfl⟩

theorem clampLow_num (bound : Option JVal) (c : JVal)
    (hb : ∀ v, bound = some v → isNum v = true) (hc : isNum c = true) :
    ∃ r, clampLow bound c = .ok r ∧ isNum r = true := by
  cases bound with
  | none => exact ⟨c, rfl, hc⟩
  | some mv =>
    obtain ⟨r, hr, hor⟩ := pyMax_num mv c (hb mv rfl) hc
    refine ⟨r, hr, ?_⟩
    rcases hor with rfl | rfl
    · exact hb r rfl
    · exact hc

theorem clampHigh_num (bound : Option JVal) (c : JVal)
    (hb : ∀ v, bound = some v → isNum v = true) (hc : isNum c = true) :
    ∃ r, clampHigh bound c = .ok r ∧ isNum r = true := by
  cases bound with
  | none => exact ⟨c, rfl, hc⟩
  | some mv =>
    obtain ⟨r, hr, hor⟩ := pyMin_num mv c (hb mv rfl) hc
    refine ⟨r, hr, ?_⟩
    rcases hor with rfl | rfl
    · exact hb r rfl
    · exact hc

theorem sliderClampSnap_eq (control : Doc) (vt coerced : JVal) :
    sliderClampSnap control vt coerced =
      sliderChain
        (match getKey control "min" with
          | some .null => none
          | none => none
          | some v => some v)
        (match getKey control "max" with
          | some .null => none
          | none => none
          | some v => some v)
        (match getKey control "step" with
          | some v => if pyTruthy v then v else .int 1
          | none => .int 1)
        vt coerced := rfl

theorem sliderChain_total (mvOpt MvOpt : Option JVal) (stepv vt coerced : JVal)
    (hmv : ∀ v, mvOpt = some v → isNum v = true)
    (hMv : ∀ v, MvOpt = some v → isNum v = true)
    (hst : isNum stepv = true) (hsttr : pyTruthy stepv = true)
    (hc : isNum coerced = true) :
    ∃ r, sliderChain mvOpt MvOpt stepv vt coerced = .ok r ∧ isNum r = true := by
  obtain ⟨c1, hc1, hn1⟩ := clampLow_num mvOpt coerced hmv hc
  obtain ⟨c2, hc2, hn2⟩ := clampHigh_num MvOpt c1 hMv hn1
  have hminv : isNum (minvOf mvOpt) = true := by
    cases mvOpt with
    | none => rfl
    | some mv => exact hmv mv rfl
  obtain ⟨diff, hdiff, hn3⟩ := pySub_num c2 _ hn2 hminv
  obtain ⟨q, hq, hn4⟩ := pyDiv_num diff stepv hn3 hst hsttr
  obtain ⟨steps, hsteps⟩ := pyRound_num q hn4
  obtain ⟨prod, hprod, hn5⟩ := pyMul_num (.int steps) stepv rfl hst
  obtain ⟨c3, hc3, hn6⟩ := pyAdd_num _ prod hminv hn5
  unfold sliderChain
  simp only [hc1, ebind_ok, hc2, hdiff, hq, hsteps, hprod, hc3]
  by_cases hvt : pyEqb vt (.str "int") = true
  · rw [if_pos hvt]
    obtain ⟨rr, hrr⟩ := pyRound_num c3 hn6
    rw [hrr, ebind_ok]
    exact ⟨.int rr, rfl, rfl⟩
  · rw [if_neg hvt]
    exact ⟨c3, rfl, hn6⟩

theorem sliderClampSnap_total (control : Doc) (vt coerced : JVal)
    (hmin : numOrNull (getKey control "min") = true)
    (hmax : numOrNull (getKey control "max") = true)
    (hstep : (match getKey control "step" with
        | none => true
        | some v => !pyTruthy v || isNum v) = true)
    (hc : isNum coerced = true) :
    ∃ r, sliderClampSnap control vt coerced = .ok r ∧ isNum r = true := by
  rw [sliderClampSnap_eq]
  refine sliderChain_total _ _ _ vt coerced ?_ ?_ ?_ ?_ hc
  · intro v hv
    cases hm : getKey control "min" with
    | none =>
      rw [hm] at hv
      exact absurd hv (by simp)
    | some w =>
      rw [hm] at hv hmin
      cases w
      case null => exact absurd hv (by simp)
      all_goals (injection hv with h2; subst h2; exact hmin)
  · intro v hv
    cases hm : getKey control "max" with
    | none =>
      rw [hm] at hv
      exact absurd hv (by simp)
    | some w =>
      rw [hm] at hv hmax
      cases w
      case null => exact absurd hv (by simp)
      all_goals (injection hv with h2; subst h2; exact hmax)
  · cases hs : getKey control "step" with
    | none => rfl
    | some v =>
      rw [hs] at hstep
      dsimp only
      dsimp only at hstep
      by_cases htv : pyTruthy v = true
      · rw [if_pos htv]
        simpa [htv] using hstep
      · rw [if_neg htv]
        rfl
  · cases hs : getKey control "step" with
    | none => rfl
    | some v =>
      dsimp only
      by_cases htv : pyTruthy v = true
      · rw [if_pos htv]
        exact htv
      · rw [if_neg htv]
        rfl

theorem pyBoolCoerce_num (v c : JVal) (h : pyBoolCoerce v = some c) :
    isNum c = true := by
  cases v with
  | bool b => injection h with h2; subst h2; rfl
  | int n => injection h with h2; subst h2; rfl
  | float q => injection h with h2; subst h2; rfl
  | str s =>
    unfold pyBoolCoerce at h
    dsimp only at h
    split at h
    · injection h with h2; subst h2; rfl
    · split at h
      · injection h with h2; subst h2; rfl
      · cases h
  | null => simp [pyBoolCoerce] at h
  | arr xs => simp [pyBoolCoerce] at h
  | obj o => simp [pyBoolCoerce] at h

theorem pyIntCoerce_num (v c : JVal) (h : pyIntCoerce v = some c) :
    isNum c = true := by
  cases v with
  | bool b => injection h with h2; subst h2; rfl
  | int n => injection h with h2; subst h2; rfl
  | float q => injection h with h2; subst h2; rfl
  | str s =>
    unfold pyIntCoerce at h
    dsimp only at h
    cases hp : parseIntChars (pyStrip s).data with
    | none => rw [hp] at h; simp at h
    | some n => rw [hp] at h; injection h with h2; subst h2; rfl
  | null => simp [pyIntCoerce] at h
  | arr xs => simp [pyIntCoerce] at h
  | obj o => simp [pyIntCoerce] at h

theorem pyFloatCoerce_num (v c : JVal) (h : pyFloatCoerce v = some c) :
    isNum c = true := by
  cases v with
  | bool b => injection h with h2; subst h2; rfl
  | int n => injection h with h2; subst h2; rfl
  | float q => injection h with h2; subst h2; rfl
  | str s =>
    unfold pyFloatCoerce at h
    dsimp only at h
    cases hp : parseFloatChars (pyStrip s).data with
    | none => rw [hp] at h; simp at h
    | some q => rw [hp] at h; injection h with h2; subst h2; rfl
  | null => simp [pyFloatCoerce] at h
  | arr xs => simp [pyFloatCoerce] at h
  | obj o => simp [pyFloatCoerce] at h

theorem coerceStage_num (vt v c : JVal)
    (hvt : (pyEqb vt (.str "int") || pyEqb vt (.str "float")
      || pyEqb vt (.str "bool")) = true)
    (h : coerceStage vt v = some c) : isNum c = true := by
  unfold coerceStage at h
  by_cases hb : pyEqb vt (.str "bool") = true
  · rw [if_pos hb] at h
    exact pyBoolCoerce_num v c h
  · rw [if_neg hb] at h
    by_cases hi : pyEqb vt (.str "int") = true
    · rw [if_pos hi] at h
      exact pyIntCoerce_num v c h
    · rw [if_neg hi] at h
      by_cases hf : pyEqb vt (.str "float") = true
      · rw [if_pos hf] at h
        exact pyFloatCoerce_num v c h
      · simp [hb, hi, hf] at hvt

theorem afterSelect_total (control : Doc) (vt ct coerced : JVal)
    (hmin : numOrNull (getKey control "min") = true)
    (hmax : numOrNull (getKey control "max") = true)
    (hstep : (match getKey control "step" with
        | none => true
        | some v => !pyTruthy v || isNum v) = true) :
    ∃ r, afterSelect control vt ct coerced = .ok r
      ∧ (isNum coerced = true → isNum r = true) := by
  unfold afterSelect
  by_cases hsl : pyEqb ct (.str "slider") = true
  · rw [if_pos hsl]
    by_cases hn : isNum coerced = true
    · rw [if_pos hn]
      obtain ⟨r, hr, hnr⟩ := sliderClampSnap_total control vt coerced hmin hmax hstep hn
      exact ⟨r, hr, fun _ => hnr⟩
    · rw [if_neg hn]
      exact ⟨coerced, rfl, fun hh => absurd hh hn⟩
  · rw [if_neg hsl]
    exact ⟨coerced, rfl, fun hh => hh⟩

theorem normalize_value_total (control : Doc) (v : JVal)
    (hmin : numOrNull (getKey control "min") = true)
    (hmax : numOrNull (getKey control "max") = true)
    (hstep : (match getKey control "step" with
        | none => true
        | some w => !pyTruthy w || isNum w) = true)
    (hvals : (match (getKey control "values").getD (.arr []) with
        | .arr _ => true
        | _ => false) = true) :
    ∃ r, normalize_value control v = .ok r
      ∧ (r = .null ∨
         ((pyEqb ((getKey control "value_type").getD (.str "str")) (.str "int")
           || pyEqb ((getKey control "value_type").getD (.str "str")) (.str "float")
           || pyEqb ((getKey control "value_type").getD (.str "str")) (.str "bool"))
             = true
          → isNum r = true)) := by
  unfold normalize_value
  dsimp only
  cases hco : coerceStage ((getKey control "value_type").getD (.str "str")) v with
  | none =>
    exact ⟨.null, rfl, Or.inl rfl⟩
  | some coerced =>
    dsimp only
    obtain ⟨r, hr, himp⟩ := afterSelect_total control
      ((getKey control "value_type").getD (.str "str"))
      ((getKey control "type").getD (.str "input")) coerced hmin hmax hstep
    have hnum : (pyEqb ((getKey control "value_type").getD (.str "str")) (.str "int")
        || pyEqb ((getKey control "value_type").getD (.str "str")) (.str "float")
        || pyEqb ((getKey control "value_type").getD (.str "str")) (.str "bool"))
          = true → isNum r = true :=
      fun hv => himp (coerceStage_num _ v coerced hv hco)
    by_cases hsel : pyEqb ((getKey control "type").getD (.str "input"))
        (.str "select") = true
    · rw [if_pos hsel]
      cases harr : (getKey control "values").getD (.arr []) with
      | arr xs =>
        have hpc : pyContains (.arr xs) coerced
            = .ok (xs.any (fun e => pyEqb e coerced)) := rfl
        rw [hpc]
        dsimp only
        cases hmem : xs.any (fun e => pyEqb e coerced) with
        | false => exact ⟨.null, rfl, Or.inl rfl⟩
        | true => exact ⟨r, hr, Or.inr hnum⟩
      | null => rw [harr] at hvals; exact Bool.noConfusion hvals
      | bool b => rw [harr] at hvals; exact Bool.noConfusion hvals
      | int n => rw [harr] at hvals; exact Bool.noConfusion hvals
      | float q => rw [harr] at hvals; exact Bool.noConfusion hvals
      | str s => rw [harr] at hvals; exact Bool.noConfusion hvals
      | obj o => rw [harr] at hvals; exact Bool.noConfusion hvals
    · rw [if_neg hsel]
      exact ⟨r, hr, Or.inr hnum⟩

theorem apply_conversion_total (control : Doc) (x : JVal)
    (h : (pyEqb ((getKey control "conversion").getD .null) (.str "f_to_c")
        || pyEqb ((getKey control "conversion").getD .null) (.str "mph_to_kph"))
          = true → isNum x = true) :
    ∃ y, apply_conversion control x = .ok y := by
  unfold apply_conversion
  dsimp only
  by_cases h1 : pyEqb ((getKey control "conversion").getD .null)
      (.str "f_to_c") = true
  · have hx := h (by simp [h1])
    rw [if_pos h1]
    obtain ⟨a, ha, hna⟩ := pySub_num x (.int 32) hx rfl
    obtain ⟨b, hb, hnb⟩ := pyMul_num a (.int 5) hna rfl
    obtain ⟨c, hc, hnc⟩ := pyDiv_num b (.int 9) hnb rfl (by decide)
    refine ⟨c, ?_⟩
    simp only [ha, ebind_ok, hb, hc]
  · rw [if_neg h1]
    by_cases h2 : pyEqb ((getKey control "conversion").getD .null)
        (.str "mph_to_kph") = true
    · have hx := h (by simp [h2])
      rw [if_pos h2]
      obtain ⟨y, hy, hny⟩ := pyMul_num x (.float (mkRat 160934 100000)) hx rfl
      exact ⟨y, hy⟩
    · rw [if_neg h2]
      exact ⟨x, rfl⟩

theorem target_str (control : Doc) (p : String)
    (hmaps : strOpt (getKey control "maps_to") = true) :
    ∃ t, (getKey control "maps_to").getD (.str p) = .str t := by
  cases hmt : getKey control "maps_to" with
  | none => exact ⟨p, rfl⟩
  | some w =>
    rw [hmt] at hmaps
    cases w with
    | str s => exact ⟨s, rfl⟩
    | null => exact Bool.noConfusion hmaps
    | bool b => exact Bool.noConfusion hmaps
    | int n => exact Bool.noConfusion hmaps
    | float q => exact Bool.noConfusion hmaps
    | arr xs => exact Bool.noConfusion hmaps
    | obj o => exact Bool.noConfusion hmaps

theorem wf_map_getCtrl (cmap : List (String × Doc)) (p : String) (ctrl : Doc)
    (hm : wf_map cmap = true) (hc : getCtrl cmap p = some ctrl) :
    wf_control ctrl = true := by
  induction cmap with
  | nil => cases hc
  | cons kv rest ih =>
    obtain ⟨k, v⟩ := kv
    unfold wf_map at hm
    simp only [List.all_cons, Bool.and_eq_true] at hm
    unfold getCtrl at hc
    by_cases hk : k = p
    · rw [if_pos hk] at hc
      injection hc with h2
      subst h2
      exact hm.1
    · rw [if_neg hk] at hc
      exact ih hm.2 hc

theorem apply_pair_total (cmap : List (String × Doc)) (state : Doc)
    (p : String) (v : JVal) (hm : wf_map cmap = true) :
    ∃ st, apply_pair cmap state p v = .ok st := by
  unfold apply_pair
  cases hcm : getCtrl cmap p with
  | none => exact ⟨state, rfl⟩
  | some control =>
    dsimp only
    have hwf := wf_map_getCtrl cmap p control hm hcm
    unfold wf_control at hwf
    simp only [Bool.and_eq_true] at hwf
    obtain ⟨⟨⟨⟨⟨⟨hmin, hmax⟩, hstep⟩, hvals⟩, hmaps⟩, hpath⟩, hconv⟩ := hwf
    by_cases htr : (!pyTruthy (JVal.obj control)) = true
    · rw [if_pos htr]
      exact ⟨state, rfl⟩
    · rw [if_neg htr]
      obtain ⟨r, hr, hro⟩ := normalize_value_total control v hmin hmax hstep hvals
      rw [hr]
      cases r
      all_goals try exact ⟨state, rfl⟩
      all_goals (
        dsimp only
        cases hro with
        | inl h0 => exact absurd h0 (by simp)
        | inr h0 =>
          obtain ⟨cv, hcv⟩ := apply_conversion_total control _
            (fun hcp => h0 (by
              simp only [hcp, Bool.not_true, Bool.false_or] at hconv
              exact hconv))
          rw [hcv]
          dsimp only
          obtain ⟨t, ht⟩ := target_str control p hmaps
          rw [ht]
          exact ⟨_, rfl⟩)

theorem applyLoop_total (cmap : List (String × Doc)) (hm : wf_map cmap = true) :
    ∀ (pairs state : Doc), ∃ st, applyLoop cmap state pairs = .ok st := by
  intro pairs
  induction pairs with
  | nil => intro state; exact ⟨state, rfl⟩
  | cons kv rest ih =>
    intro state
    obtain ⟨k, v⟩ := kv
    obtain ⟨st1, hst1⟩ := apply_pair_total cmap state k v hm
    obtain ⟨st2, hst2⟩ := ih st1
    refine ⟨st2, ?_⟩
    unfold applyLoop
    rw [hst1]
    exact hst2

theorem pruneLoop_total (xs : List JVal)
    (hxs : ∀ c ∈ xs, ∃ d, c = JVal.obj d ∧ wf_control d = true) :
    ∀ acc, ∃ r, pruneLoop acc xs = .ok r := by
  induction xs with
  | nil => intro acc; exact ⟨acc, rfl⟩
  | cons c rest ih =>
    intro acc
    have hrest : ∀ c2 ∈ rest, ∃ d, c2 = JVal.obj d ∧ wf_control d = true :=
      fun c2 hc2 => hxs c2 (by simp [hc2])
    obtain ⟨d, rfl, hwf⟩ := hxs c (by simp)
    unfold pruneLoop
    dsimp only [pyAsDict]
    by_cases hcond : (pyTruthy ((getKey d "path").getD .null)
        && pyTruthy ((getKey d "maps_to").getD .null)) = true
    · rw [if_pos hcond]
      have hsplit := hcond
      simp only [Bool.and_eq_true] at hsplit
      have hptr : pyTruthy ((getKey d "path").getD .null) = true := hsplit.1
      unfold wf_control at hwf
      simp only [Bool.and_eq_true] at hwf
      obtain ⟨⟨_, hpath⟩, _⟩ := hwf
      cases hgp : (getKey d "path").getD .null with
      | str s => exact ih hrest _
      | null =>
        rw [hgp] at hptr
        exact Bool.noConfusion hptr
      | bool b =>
        rw [hgp] at hptr hpath
        simp [hptr] at hpath
      | int n =>
        rw [hgp] at hptr hpath
        simp [hptr] at hpath
      | float q =>
        rw [hgp] at hptr hpath
        simp [hptr] at hpath
      | arr a =>
        rw [hgp] at hptr hpath
        simp [hptr] at hpath
      | obj o =>
        rw [hgp] at hptr hpath
        simp [hptr] at hpath
    · rw [if_neg hcond]
      exact ih hrest acc

/-- CLAIM C7 counterexample: `apply_update` is not total — a descriptor with
`value_type` `str` and `conversion` `f_to_c` makes it raise a `TypeError`
(the coerced string flows into the arithmetic of the conversion), instead of
dropping the leaf. -/
theorem C7_counterexample :
    apply_update badCatalog badMap [] [("p", .str "hi")]
      = .error "TypeError: unsupported operand for -" := by decide

/-- CLAIM C7 (amended): over every well-formed catalog and index — numeric
or `None` slider bounds, numeric truthy `step`, list `values`, string
`maps_to`, string truthy `path`, and conversion tags only on numeric
`value_type` descriptors — `apply_update` never raises, for every state and
every nested update payload: malformed leaves are dropped silently; and
concretely an unparseable slider string is dropped while the state survives.
The original claim is refuted by `apply_update` raising on a catalog pairing
a conversion with a string `value_type`. -/
theorem C7_fail_soft_total :
    (∀ (controls : JVal) (cmap : List (String × Doc)) (state update : Doc),
      wf_catalog controls = true → wf_map cmap = true →
      ∃ t, apply_update controls cmap state update = .ok t)
    ∧ apply_update fahrenheitCatalog fahrenheitMap [("x", .int 1)]
        [("t", .str "abc")] = .ok [("x", .int 1)] := by
  refine ⟨?_, by decide⟩
  intro controls cmap state update hc hm
  obtain ⟨st1, hst1⟩ := applyLoop_total cmap hm (flatten_update update) state
  unfold wf_catalog at hc
  cases controls with
  | obj o =>
    dsimp only at hc
    cases hcc : (getKey o "controls").getD (.arr []) with
    | arr xs =>
      rw [hcc] at hc
      have hxs : ∀ c ∈ xs, ∃ d, c = JVal.obj d ∧ wf_control d = true := by
        intro c hcx
        have hall := List.all_eq_true.mp hc c hcx
        cases c with
        | obj d => exact ⟨d, rfl, hall⟩
        | null => exact Bool.noConfusion hall
        | bool b => exact Bool.noConfusion hall
        | int n => exact Bool.noConfusion hall
        | float q => exact Bool.noConfusion hall
        | str s => exact Bool.noConfusion hall
        | arr a => exact Bool.noConfusion hall
      obtain ⟨pr, hpr⟩ := pruneLoop_total xs hxs (st1, false)
      refine ⟨pr.1, ?_⟩
      unfold apply_update
      dsimp only
      rw [hst1]
      dsimp only
      unfold prune_mapped_state_entries
      have hga : pyGetAttr (JVal.obj o) "controls" (.arr [])
          = .ok ((getKey o "controls").getD (.arr [])) := rfl
      rw [hga, hcc]
      dsimp only
      have hit : pyIter (JVal.arr xs) = .ok xs := rfl
      rw [hit]
      dsimp only
      rw [hpr]
    | null => rw [hcc] at hc; exact Bool.noConfusion hc
    | bool b => rw [hcc] at hc; exact Bool.noConfusion hc
    | int n => rw [hcc] at hc; exact Bool.noConfusion hc
    | float q => rw [hcc] at hc; exact Bool.noConfusion hc
    | str s => rw [hcc] at hc; exact Bool.noConfusion hc
    | obj o2 => rw [hcc] at hc; exact Bool.noConfusion hc
  | null => exact Bool.noConfusion hc
  | bool b => exact Bool.noConfusion hc
  | int n => exact Bool.noConfusion hc
  | float q => exact Bool.noConfusion hc
  | str s => exact Bool.noConfusion hc
  | arr a => exact Bool.noConfusion hc

/-- Witness for the universal component of C7 at the Fahrenheit catalog. -/
theorem C7_fail_soft_total_witness :
    ∃ t, apply_update fahrenheitCatalog fahrenheitMap [] [("t", .int 300)]
      = .ok t :=
  C7_fail_soft_total.1 fahrenheitCatalog fahrenheitMap [] [("t", .int 300)]
    (by decide) (by decide)

theorem getCtrl_setCtrl (mapping : List (String × Doc)) (s p : String)
    (d ctrl : Doc) (h : getCtrl (setCtrl mapping s d) p = some ctrl) :
    (p = s ∧ ctrl = d) ∨ getCtrl mapping p = some ctrl := by
  induction mapping with
  | nil =>
    unfold setCtrl getCtrl at h
    by_cases hk : s = p
    · rw [if_pos hk] at h
      injection h with h2
      exact Or.inl ⟨hk.symm, h2.symm⟩
    · rw [if_neg hk] at h
      cases h
  | cons kv rest ih =>
    obtain ⟨k, v⟩ := kv
    unfold setCtrl at h
    by_cases hk : k = s
    · rw [if_pos hk] at h
      unfold getCtrl at h
      by_cases hs : s = p
      · rw [if_pos hs] at h
        injection h with h2
        exact Or.inl ⟨hs.symm, h2.symm⟩
      · rw [if_neg hs] at h
        right
        unfold getCtrl
        rw [if_neg (by rw [hk]; exact hs)]
        exact h
    · rw [if_neg hk] at h
      unfold getCtrl at h
      by_cases hp : k = p
      · rw [if_pos hp] at h
        right
        unfold getCtrl
        rw [if_pos hp]
        exact h
      · rw [if_neg hp] at h
        rcases ih h with h1 | h1
        · exact Or.inl h1
        · right
          unfold getCtrl
          rw [if_neg hp]
          exact h1

theorem buildMapLoop_ok (xs : List JVal)
    (hxs : ∀ c ∈ xs, ∃ d, c = JVal.obj d) :
    ∀ mapping,
      (∀ p ctrl, getCtrl mapping p = some ctrl →
        getKey ctrl "path" = some (.str p)) →
      ∃ m, buildMapLoop mapping xs = .ok m ∧
        ∀ p ctrl, getCtrl m p = some ctrl →
          getKey ctrl "path" = some (.str p) := by
  induction xs with
  | nil => intro mapping hinv; exact ⟨mapping, rfl, hinv⟩
  | cons c rest ih =>
    intro mapping hinv
    have hrest : ∀ c2 ∈ rest, ∃ d2, c2 = JVal.obj d2 :=
      fun c2 h2 => hxs c2 (by simp [h2])
    obtain ⟨d, rfl⟩ := hxs c (by simp)
    unfold buildMapLoop
    dsimp only [pyAsDict]
    cases hgp : getKey d "path" with
    | none => exact ih hrest mapping hinv
    | some w =>
      cases w with
      | str s =>
        apply ih hrest (setCtrl mapping s d)
        intro p ctrl hgc
        rcases getCtrl_setCtrl mapping s p d ctrl hgc with ⟨rfl, rfl⟩ | h1
        · exact hgp
        · exact hinv p ctrl h1
      | null => exact ih hrest mapping hinv
      | bool b => exact ih hrest mapping hinv
      | int n => exact ih hrest mapping hinv
      | float q => exact ih hrest mapping hinv
      | arr a => exact ih hrest mapping hinv
      | obj o => exact ih hrest mapping hinv

/-- CLAIM C8 counterexample: a catalog whose `controls` list holds a bare
number survives `load_controls` untouched (it is a dict with a `controls`
key), and `build_control_map` then raises `AttributeError` on the non-dict
entry instead of degrading — index construction is not total. -/
theorem C8_counterexample :
    load_controls (some (.obj [("controls", .arr [.int 42])]))
        = .obj [("controls", .arr [.int 42])]
    ∧ build_control_map (.obj [("controls", .arr [.int 42])])
        = .error "AttributeError: object has no attribute get" := by
  refine ⟨by decide, by decide⟩

/-- CLAIM C8 (amended): `load_controls` always yields a dict with a
`controls` key, degrading a missing file or a non-dict document to the empty
catalog; and over catalogs whose `controls` entries are all dicts — the only
shape the original claim actually covers without raising — `build_control_map`
succeeds, skips entries without a string `path` non-fatally (the three-entry
example keeps only the `ok` descriptor), and every index entry maps a path to
a descriptor declaring exactly that string `path`.  Totality over arbitrary
catalogs is refuted: a non-dict list entry raises `AttributeError`. -/
theorem C8_index_graceful :
    (∀ raw, ∃ o, load_controls raw = .obj o ∧ keyMem "controls" o = true)
    ∧ load_controls none = .obj [("controls", .arr [])]
    ∧ load_controls (some (.arr [.int 1])) = .obj [("controls", .arr [])]
    ∧ (∀ xs : List JVal, (∀ c ∈ xs, ∃ d, c = JVal.obj d) →
        ∃ m, build_control_map (.obj [("controls", .arr xs)]) = .ok m
          ∧ ∀ p ctrl, getCtrl m p = some ctrl →
              getKey ctrl "path" = some (.str p))
    ∧ build_control_map (.obj [("controls", .arr
        [.obj [("type", .str "x")], .obj [("path", .int 3)],
         .obj [("path", .str "ok"), ("x", .int 1)]])])
        = .ok [("ok", [("path", .str "ok"), ("x", .int 1)])] := by
  refine ⟨?_, by decide, by decide, ?_, by decide⟩
  · intro raw
    cases raw with
    | none => exact ⟨[("controls", .arr [])], rfl, rfl⟩
    | some j =>
      cases j with
      | obj o =>
        unfold load_controls
        dsimp only [Option.getD]
        by_cases hk : keyMem "controls" o = true
        · rw [if_pos hk]
          exact ⟨o, rfl, hk⟩
        · rw [if_neg hk]
          exact ⟨[("controls", .arr [])], rfl, rfl⟩
      | null => exact ⟨[("controls", .arr [])], rfl, rfl⟩
      | bool b => exact ⟨[("controls", .arr [])], rfl, rfl⟩
      | int n => exact ⟨[("controls", .arr [])], rfl, rfl⟩
      | float q => exact ⟨[("controls", .arr [])], rfl, rfl⟩
      | str s => exact ⟨[("controls", .arr [])], rfl, rfl⟩
      | arr a => exact ⟨[("controls", .arr [])], rfl, rfl⟩
  · intro xs hxs
    have h0 : ∀ p ctrl, getCtrl ([] : List (String × Doc)) p = some ctrl →
        getKey ctrl "path" = some (.str p) := by
      intro p ctrl h
      cases h
    obtain ⟨m, hm2, hinv⟩ := buildMapLoop_ok xs hxs [] h0
    refine ⟨m, ?_, hinv⟩
    unfold build_control_map
    have hga : pyGetAttr (JVal.obj [("controls", JVal.arr xs)]) "controls"
        (.arr []) = .ok (.arr xs) := rfl
    rw [hga]
    dsimp only
    have hit : pyIter (JVal.arr xs) = .ok xs := rfl
    rw [hit]
    exact hm2

/-- Witness for the universal components of C8: a one-entry all-dict catalog
builds an index whose sole descriptor carries its own path. -/
theorem C8_index_graceful_witness :
    ∃ m, build_control_map (.obj [("controls",
        .arr [.obj [("path", .str "k")]])]) = .ok m
      ∧ ∀ p ctrl, getCtrl m p = some ctrl →
          getKey ctrl "path" = some (.str p) :=
  C8_index_graceful.2.2.2.1 [.obj [("path", JVal.str "k")]]
    (by
      intro c hc
      simp at hc
      subst hc
      exact ⟨[("path", JVal.str "k")], rfl⟩)

theorem merge_state_obj (dflt cur : Doc) :
    merge_state (.obj dflt) (.obj cur) = .obj (mergedObj dflt cur) := rfl

theorem getKey_mergeFields (dflt cur : Doc) (k : String) :
    getKey (mergeFields dflt cur) k =
      match getKey dflt k with
      | some dv => some (match getKey cur k with
          | some cv => merge_state dv cv
          | none => dv)
      | none => none := by
  induction dflt with
  | nil => rfl
  | cons kv rest ih =>
    obtain ⟨k2, dv⟩ := kv
    by_cases hk : k2 = k
    · subst hk
      unfold mergeFields
      cases hc : getKey cur k2 with
      | some cv => simp [getKey_cons, hc]
      | none => simp [getKey_cons, hc]
    · unfold mergeFields
      cases hc : getKey cur k2 with
      | some cv => simp [getKey_cons, hc, hk, ih]
      | none => simp [getKey_cons, hc, hk, ih]

theorem getKey_append (a b : Doc) (k : String) :
    getKey (a ++ b) k =
      match getKey a k with
      | some v => some v
      | none => getKey b k := by
  induction a with
  | nil => rfl
  | cons kv rest ih =>
    obtain ⟨k2, v⟩ := kv
    by_cases hk : k2 = k
    · simp [getKey_cons, hk]
    · simp [getKey_cons, hk, ih]

theorem getKey_filter_key (p : String → Bool) (cur : Doc) (k : String)
    (hp : p k = true) :
    getKey (cur.filter (fun kv => p kv.1)) k = getKey cur k := by
  induction cur with
  | nil => rfl
  | cons kv rest ih =>
    obtain ⟨k2, v⟩ := kv
    by_cases hk : k2 = k
    · subst hk
      simp [List.filter_cons, hp, getKey_cons]
    · by_cases hp2 : p k2 = true
      · simp [List.filter_cons, hp2, getKey_cons, hk, ih]
      · simp [List.filter_cons, hp2, getKey_cons, hk, ih]

/-- CLAIM C9 counterexample: merging the stored document `\x7b"ac": 7\x7d`
against the default template does not leave the user-set leaf `ac`
untouched — the default value at `ac` is a mapping, so the merge throws the
stored leaf away and restores the default subtree. -/
theorem C9_counterexample :
    kindAt (merge_state DEFAULT_STATE (.obj [("ac", .int 7)])) ["ac"]
        = some .dict
    ∧ kindAt (.obj [("ac", .int 7)]) ["ac"] = some (.leaf (.int 7)) := by
  refine ⟨by decide, by decide⟩

/-- CLAIM C9 (amended): merging a stored dict against a default dict adds
default-only keys with their default values, preserves current-only keys
identically, and merges shared keys recursively, where at a non-dict default
a non-`None` stored value wins — so user-set leaves survive only where the
template also holds a leaf and the stored value is not `None` (the original
claim missed both provisos); `load_state` on a stored dict is exactly this
merge against `DEFAULT_STATE`, and concretely a stored extra field and a
user-set `ac.power` survive while missing defaults are filled in. -/
theorem C9_default_merge :
    (∀ (dflt cur : Doc) (k : String) (dv : JVal),
      getKey dflt k = some dv → getKey cur k = none →
      getKey (mergedObj dflt cur) k = some dv)
    ∧ (∀ (dflt cur : Doc) (k : String) (cv : JVal),
      getKey dflt k = none → getKey cur k = some cv →
      getKey (mergedObj dflt cur) k = some cv)
    ∧ (∀ (dflt cur : Doc) (k : String) (dv cv : JVal),
      getKey dflt k = some dv → getKey cur k = some cv →
      getKey (mergedObj dflt cur) k = some (merge_state dv cv))
    ∧ (∀ dv cv : JVal, (∀ o, dv ≠ .obj o) → cv ≠ .null →
      merge_state dv cv = cv)
    ∧ (∀ cur : Doc, load_state (some (.obj cur))
        = merge_state DEFAULT_STATE (.obj cur))
    ∧ kindAt (merge_state DEFAULT_STATE
        (.obj [("extra", .int 5), ("ac", .obj [("power", .bool true)])]))
        ["extra"] = some (.leaf (.int 5))
    ∧ kindAt (merge_state DEFAULT_STATE
        (.obj [("extra", .int 5), ("ac", .obj [("power", .bool true)])]))
        ["ac", "power"] = some (.leaf (.bool true))
    ∧ kindAt (merge_state DEFAULT_STATE
        (.obj [("extra", .int 5), ("ac", .obj [("power", .bool true)])]))
        ["ac", "temperature_c"] = some (.leaf (.int 22))
    ∧ kindAt (merge_state DEFAULT_STATE
        (.obj [("extra", .int 5), ("ac", .obj [("power", .bool true)])]))
        ["units", "system"] = some (.leaf (.str "metric")) := by
  refine ⟨?_, ?_, ?_, ?_, fun cur => rfl,
    by decide, by decide, by decide, by decide⟩
  · intro dflt cur k dv hd hc
    unfold mergedObj
    rw [getKey_append, getKey_mergeFields, hd, hc]
  · intro dflt cur k cv hd hc
    unfold mergedObj
    rw [getKey_append, getKey_mergeFields, hd]
    dsimp only
    have hp : (!keyMem k (mergeFields dflt cur)) = true := by
      unfold keyMem
      rw [getKey_mergeFields, hd]
      rfl
    rw [getKey_filter_key (fun s => !keyMem s (mergeFields dflt cur)) cur k hp]
    exact hc
  · intro dflt cur k dv cv hd hc
    unfold mergedObj
    rw [getKey_append, getKey_mergeFields, hd, hc]
  · intro dv cv hdv hcv
    cases dv with
    | obj o => exact absurd rfl (hdv o)
    | null => cases cv <;> first | exact absurd rfl hcv | rfl
    | bool b => cases cv <;> first | exact absurd rfl hcv | rfl
    | int n => cases cv <;> first | exact absurd rfl hcv | rfl
    | float q => cases cv <;> first | exact absurd rfl hcv | rfl
    | str s => cases cv <;> first | exact absurd rfl hcv | rfl
    | arr a => cases cv <;> first | exact absurd rfl hcv | rfl

/-- Witness for the universal components of C9 at a two-key example. -/
theorem C9_default_merge_witness :
    getKey (mergedObj [("a", .int 1)] [("b", .int 2)]) "a" = some (.int 1) :=
  C9_default_merge.1 [("a", .int 1)] [("b", .int 2)] "a" (.int 1)
    (by decide) (by decide)
